import Mathlib

/-!
Verification of the Velocity cryptoCore subsystem
(`src/velocity-platform/src/services/cryptoCore/`): shallow embedding of the
Merkle tree, signature verifier, trust calculator and Monte Carlo engine,
with theorems settling the specification's claims about them.

Modelling conventions:
* byte strings (`Vec<u8>`) are `List Nat`;
* `f64` values are real numbers (floating rounding is out of scope);
* a `HashAlgorithm` is modelled by the hash function it denotes
  (`HashEngine::hash` is total and always returns `Ok`);
* Rust `Result` is `Except String`; a Rust panic is modelled by `Option`
  (`none`) or by a dedicated `panic` outcome where it matters;
* `rayon` parallel maps preserve input order, so they are embedded as `map`;
  schedule dependence is modelled explicitly where a claim is about it.
-/

namespace Merkle

/-- Byte strings (`Vec<u8>`). -/
abbrev Bytes := List Nat

/-- A hash algorithm, modelled by the (total) function `HashEngine::hash`
computes for it. -/
abbrev HashFn := Bytes → Bytes

/-- `MerkleTree::build_level`: walk the level at indices `0, 2, 4, ...`
(`(0..len).step_by(2)`), hash `left ++ right`, duplicating the last node
when the level has odd length. -/
def build_level (h : HashFn) : List Bytes → List Bytes
  | [] => []
  | [x] => [h (x ++ x)]
  | x :: y :: rest => h (x ++ y) :: build_level h rest

theorem build_level_length (h : HashFn) :
    ∀ l : List Bytes, (build_level h l).length = (l.length + 1) / 2
  | [] => by simp [build_level]
  | [x] => by simp [build_level]
  | _ :: _ :: rest => by
      simp only [build_level, List.length_cons, build_level_length h rest]
      omega

/-- The level-building loop of `MerkleTree::new`: starting from the leaves,
push `build_level` of the last level while it has more than one node.
`levels[0]` is the leaf level. -/
def build_levels (h : HashFn) (lvl : List Bytes) : List (List Bytes) :=
  if lvl.length ≤ 1 then [lvl]
  else lvl :: build_levels h (build_level h lvl)
termination_by lvl.length
decreasing_by
  simp only [build_level_length h]
  omega

theorem build_levels_ne_nil (h : HashFn) (lvl : List Bytes) :
    build_levels h lvl ≠ [] := by
  rw [build_levels]
  split <;> simp

theorem build_levels_head (h : HashFn) (lvl : List Bytes) :
    (build_levels h lvl).head? = some lvl := by
  rw [build_levels]
  split <;> rfl

theorem build_levels_headD (h : HashFn) (lvl : List Bytes) :
    (build_levels h lvl).headD [] = lvl := by
  rw [List.headD_eq_head?, build_levels_head]
  rfl

/-- The root taken by `MerkleTree::new`: `levels.last().unwrap()[0]`. -/
def levels_root (levels : List (List Bytes)) : Bytes :=
  (levels.getLastD []).headI

/-- The tree as stored: `root` and `levels` (level 0 = leaves).  The
`algorithm` field is represented by passing the same hash function to every
operation. -/
structure MerkleTree where
  root : Bytes
  levels : List (List Bytes)

/-- `MerkleTree::new`: error on an empty leaf list, otherwise build all
levels and take the root. -/
def MerkleTree.new (h : HashFn) (leaves : List Bytes) : Except String MerkleTree :=
  if leaves.isEmpty then
    .error "Cannot create Merkle tree with no leaves"
  else
    .ok { root := levels_root (build_levels h leaves), levels := build_levels h leaves }

/-- `MerkleTree::leaf_count`: `self.levels[0].len()`. -/
def MerkleTree.leaf_count (t : MerkleTree) : Nat :=
  (t.levels.headD []).length

/-- `MerkleTree::depth`: `self.levels.len()`. -/
def MerkleTree.depth (t : MerkleTree) : Nat :=
  t.levels.length

structure MerkleProof where
  leaf : Bytes
  leaf_index : Nat
  siblings : List Bytes
  directions : List Bool
deriving DecidableEq

/-- The sibling index used by `MerkleTree::generate_proof` at one level:
`current_index - 1` for a right child, else `current_index + 1` when that
exists, else `current_index` (duplicate self). -/
def sib_index (len idx : Nat) : Nat :=
  if idx % 2 = 1 then idx - 1
  else if idx + 1 < len then idx + 1 else idx

/-- The level walk of `MerkleTree::generate_proof`: for each level except the
last, record the direction flag (`current_index % 2 == 1`) and the sibling,
then halve the index. -/
def proof_walk : List (List Bytes) → Nat → List Bytes × List Bool
  | [], _ => ([], [])
  | [_], _ => ([], [])
  | lvl :: l2 :: rest, idx =>
      ((lvl.getD (sib_index lvl.length idx) []) :: (proof_walk (l2 :: rest) (idx / 2)).1,
       (idx % 2 == 1) :: (proof_walk (l2 :: rest) (idx / 2)).2)

/-- `MerkleTree::generate_proof`. -/
def MerkleTree.generate_proof (t : MerkleTree) (leaf_index : Nat) :
    Except String MerkleProof :=
  if t.leaf_count ≤ leaf_index then
    .error "Leaf index out of bounds"
  else
    .ok { leaf := (t.levels.headD []).getD leaf_index [],
          leaf_index := leaf_index,
          siblings := (proof_walk t.levels leaf_index).1,
          directions := (proof_walk t.levels leaf_index).2 }

/-- `MerkleTree::compute_root_from_proof`: recombine the running hash with
each sibling (direction true ⇒ `hash(sibling ++ current)`).  The Rust code
indexes `directions[i]` while iterating `siblings`, so it panics (`none`)
when `directions` is shorter than `siblings`. -/
def compute_root_from_proof (h : HashFn) (cur : Bytes) :
    List Bytes → List Bool → Option Bytes
  | [], _ => some cur
  | s :: ss, d :: ds =>
      compute_root_from_proof h (if d then h (s ++ cur) else h (cur ++ s)) ss ds
  | _ :: _, [] => none

/-- `MerkleTree::verify_proof`: recompute the root and compare it with the
stored root. -/
def MerkleTree.verify_proof (h : HashFn) (t : MerkleTree) (p : MerkleProof) :
    Option Bool :=
  (compute_root_from_proof h p.leaf p.siblings p.directions).map (fun c => c == t.root)

theorem pair_step (h : HashFn) :
    ∀ (lvl : List Bytes) (idx : Nat), idx < lvl.length →
      (if (idx % 2 == 1) then h (lvl.getD (sib_index lvl.length idx) [] ++ lvl.getD idx [])
       else h (lvl.getD idx [] ++ lvl.getD (sib_index lvl.length idx) []))
      = (build_level h lvl).getD (idx / 2) []
  | [], idx, hidx => by simp at hidx
  | [x], idx, hidx => by
      have hidx0 : idx = 0 := by simpa using hidx
      subst hidx0
      simp [sib_index, build_level]
  | x :: y :: rest, 0, _ => by
      simp [sib_index, build_level]
  | x :: y :: rest, 1, _ => by
      simp [sib_index, build_level]
  | x :: y :: rest, (k + 2), hidx => by
      have hk : k < rest.length := by
        simpa using Nat.lt_of_add_lt_add_right hidx
      have hsib : sib_index (x :: y :: rest).length (k + 2) = sib_index rest.length k + 2 := by
        simp only [sib_index, List.length_cons]
        split_ifs <;> omega
      have hmod : (k + 2) % 2 = k % 2 := by omega
      have hdiv : (k + 2) / 2 = k / 2 + 1 := by omega
      rw [hsib, hmod, hdiv]
      have hstep := pair_step h rest k hk
      simpa [build_level, List.getD_cons_succ] using hstep

theorem getLastD_of_ne_nil {α : Type} (l : List α) (d d' : α) (hl : l ≠ []) :
    l.getLastD d = l.getLastD d' := by
  cases l with
  | nil => exact absurd rfl hl
  | cons a t =>
      cases t with
      | nil => rfl
      | cons b u => simp only [List.getLastD_cons]

/-- Core round-trip: recombining a leaf with the siblings `proof_walk`
collects over the built levels recomputes exactly the stored root. -/
theorem roundtrip (h : HashFn) (lvl : List Bytes) (idx : Nat)
    (hidx : idx < lvl.length) :
    compute_root_from_proof h (lvl.getD idx [])
      (proof_walk (build_levels h lvl) idx).1 (proof_walk (build_levels h lvl) idx).2
    = some (levels_root (build_levels h lvl)) := by
  rw [build_levels]
  by_cases hle : lvl.length ≤ 1
  · rw [if_pos hle]
    have hlen : lvl.length = 1 := by omega
    have hidx0 : idx = 0 := by omega
    subst hidx0
    rcases lvl with _ | ⟨a, _ | _⟩ <;> simp_all [proof_walk, compute_root_from_proof, levels_root]
  · rw [if_neg hle]
    have hbl : 1 ≤ (build_level h lvl).length := by
      rw [build_level_length h lvl]; omega
    have hrec := roundtrip h (build_level h lvl) (idx / 2)
      (by rw [build_level_length h lvl]; omega)
    obtain ⟨l2, rest, hL⟩ : ∃ l2 rest, build_levels h (build_level h lvl) = l2 :: rest := by
      rcases hne : build_levels h (build_level h lvl) with _ | ⟨l2, rest⟩
      · exact absurd hne (build_levels_ne_nil h _)
      · exact ⟨l2, rest, rfl⟩
    rw [hL]
    rw [hL] at hrec
    simp only [proof_walk, compute_root_from_proof]
    rw [pair_step h lvl idx hidx]
    have hroot : levels_root (lvl :: l2 :: rest) = levels_root (l2 :: rest) := by
      simp only [levels_root, List.getLastD_cons]
    rw [hroot]
    exact hrec
termination_by lvl.length
decreasing_by
  simp only [build_level_length h]
  omega

/-- C1.  For every hash algorithm, every non-empty leaf list and every valid
index, building the tree, generating the proof for that index and verifying
it yields `Ok(true)`. -/
theorem verify_proof_of_generate_proof (h : HashFn) (leaves : List Bytes)
    (i : Nat) (hne : leaves ≠ []) (hi : i < leaves.length) :
    ((MerkleTree.new h leaves).toOption.bind fun t =>
      (t.generate_proof i).toOption.bind fun p =>
        t.verify_proof h p) = some true := by
  have hnew : MerkleTree.new h leaves =
      .ok ⟨levels_root (build_levels h leaves), build_levels h leaves⟩ := by
    rw [MerkleTree.new, if_neg (by simpa using hne)]
  have hcount : (MerkleTree.mk (levels_root (build_levels h leaves))
      (build_levels h leaves)).leaf_count = leaves.length := by
    simp only [MerkleTree.leaf_count, build_levels_headD]
  have hgp : (MerkleTree.mk (levels_root (build_levels h leaves))
        (build_levels h leaves)).generate_proof i =
      .ok ⟨leaves.getD i [], i, (proof_walk (build_levels h leaves) i).1,
        (proof_walk (build_levels h leaves) i).2⟩ := by
    rw [MerkleTree.generate_proof, if_neg (by omega)]
    simp only [build_levels_headD]
  rw [hnew]
  show ((MerkleTree.mk (levels_root (build_levels h leaves))
      (build_levels h leaves)).generate_proof i).toOption.bind _ = some true
  rw [hgp]
  show MerkleTree.verify_proof h _ _ = some true
  rw [MerkleTree.verify_proof]
  simp only
  rw [roundtrip h leaves i hi]
  simp [levels_root]

/-- C1 witness at a concrete input: three one-byte leaves, index 2, with a
concrete hash function. -/
theorem verify_proof_of_generate_proof_witness :
    ((MerkleTree.new (fun b => 7 :: b) [[0], [1], [2]]).toOption.bind fun t =>
      (t.generate_proof 2).toOption.bind fun p =>
        t.verify_proof (fun b => 7 :: b) p) = some true :=
  verify_proof_of_generate_proof (fun b => 7 :: b) [[0], [1], [2]] 2
    (by decide) (by decide)

theorem proof_walk_lengths :
    ∀ (levels : List (List Bytes)) (idx : Nat),
      (proof_walk levels idx).1.length = levels.length - 1 ∧
      (proof_walk levels idx).2.length = levels.length - 1
  | [], _ => by simp [proof_walk]
  | [_], _ => by simp [proof_walk]
  | lvl :: l2 :: rest, idx => by
      have hrec := proof_walk_lengths (l2 :: rest) (idx / 2)
      simp only [List.length_cons] at hrec
      simp only [proof_walk, List.length_cons]
      omega

theorem build_levels_length (h : HashFn) (lvl : List Bytes) (hne : lvl ≠ []) :
    (build_levels h lvl).length = Nat.clog 2 lvl.length + 1 := by
  rw [build_levels]
  by_cases hle : lvl.length ≤ 1
  · have h1 : lvl.length = 1 := by
      have : lvl.length ≠ 0 := by simpa using hne
      omega
    rw [if_pos hle, h1]
    simp [Nat.clog_one_right]
  · rw [if_neg hle]
    have hlen : (build_level h lvl).length = (lvl.length + 1) / 2 := build_level_length h lvl
    have hrec := build_levels_length h (build_level h lvl)
      (by intro hemp; rw [hemp] at hlen; simp at hlen; omega)
    have h2 : Nat.clog 2 lvl.length = Nat.clog 2 ((lvl.length + 2 - 1) / 2) + 1 :=
      Nat.clog_of_two_le (by omega) (by omega)
    have h3 : (lvl.length + 2 - 1) / 2 = (lvl.length + 1) / 2 := by omega
    rw [List.length_cons, hrec, hlen, h2, h3]
termination_by lvl.length
decreasing_by
  simp only [build_level_length h]
  omega

/-- C7.  For a tree of `n` leaves and a valid index, the generated proof has
equally long `siblings` and `directions` lists, of length `depth - 1`, which
equals `ceil(log2 n)`. -/
theorem generate_proof_lengths (h : HashFn) (leaves : List Bytes) (i : Nat)
    (hne : leaves ≠ []) (hi : i < leaves.length) :
    ∃ t p, MerkleTree.new h leaves = .ok t ∧ t.generate_proof i = .ok p ∧
      p.siblings.length = p.directions.length ∧
      p.siblings.length = t.depth - 1 ∧
      p.siblings.length = Nat.clog 2 leaves.length := by
  refine ⟨⟨levels_root (build_levels h leaves), build_levels h leaves⟩,
    ⟨leaves.getD i [], i, (proof_walk (build_levels h leaves) i).1,
      (proof_walk (build_levels h leaves) i).2⟩, ?_, ?_, ?_, ?_, ?_⟩
  · rw [MerkleTree.new, if_neg (by simpa using hne)]
  · have hcount : (MerkleTree.mk (levels_root (build_levels h leaves))
        (build_levels h leaves)).leaf_count = leaves.length := by
      simp only [MerkleTree.leaf_count, build_levels_headD]
    rw [MerkleTree.generate_proof, if_neg (by omega)]
    simp only [build_levels_headD]
  · have hl := proof_walk_lengths (build_levels h leaves) i
    dsimp only
    omega
  · have hl := proof_walk_lengths (build_levels h leaves) i
    simp only [MerkleTree.depth]
    omega
  · have hl := proof_walk_lengths (build_levels h leaves) i
    have hbl := build_levels_length h leaves hne
    dsimp only
    omega

/-- C7 witness at a concrete input: five leaves, index 3; the proof has
`ceil(log2 5) = 3` sibling/direction pairs and the tree depth is 4. -/
theorem generate_proof_lengths_witness :
    ∃ t p, MerkleTree.new (fun b => 9 :: b) [[0], [1], [2], [3], [4]] = .ok t ∧
      t.generate_proof 3 = .ok p ∧
      p.siblings.length = p.directions.length ∧
      p.siblings.length = t.depth - 1 ∧
      p.siblings.length = Nat.clog 2 [[0], [1], [2], [3], [4]].length :=
  generate_proof_lengths (fun b => 9 :: b) [[0], [1], [2], [3], [4]] 3
    (by decide) (by decide)

/-- The pair list collected by `MerkleTree::build_level_parallel` before the
parallel map: `(0..len).step_by(2)` produces `(level[i], level[i+1])`, with
the right component duplicating the left when `i + 1` is out of bounds. -/
def step_pairs : List Bytes → List (Bytes × Bytes)
  | [] => []
  | [x] => [(x, x)]
  | x :: y :: rest => (x, y) :: step_pairs rest

/-- `MerkleTree::build_level_parallel`: hash each collected pair; the rayon
parallel iterator keeps results in pair order. -/
def build_level_parallel (h : HashFn) (lvl : List Bytes) : List Bytes :=
  (step_pairs lvl).map (fun p => h (p.1 ++ p.2))

theorem build_level_parallel_eq (h : HashFn) :
    ∀ lvl : List Bytes, build_level_parallel h lvl = build_level h lvl
  | [] => rfl
  | [x] => rfl
  | x :: y :: rest => by
      simp only [build_level_parallel, step_pairs, List.map_cons, build_level]
      rw [← build_level_parallel_eq h rest]
      rfl

/-- The level-building loop of `MerkleTree::new_parallel`. -/
def build_levels_parallel (h : HashFn) (lvl : List Bytes) : List (List Bytes) :=
  if lvl.length ≤ 1 then [lvl]
  else lvl :: build_levels_parallel h (build_level_parallel h lvl)
termination_by lvl.length
decreasing_by
  rw [build_level_parallel_eq h]
  simp only [build_level_length h]
  omega

theorem build_levels_parallel_eq (h : HashFn) (lvl : List Bytes) :
    build_levels_parallel h lvl = build_levels h lvl := by
  rw [build_levels_parallel, build_levels]
  by_cases hle : lvl.length ≤ 1
  · rw [if_pos hle, if_pos hle]
  · rw [if_neg hle, if_neg hle, build_level_parallel_eq h lvl,
      build_levels_parallel_eq h (build_level h lvl)]
termination_by lvl.length
decreasing_by
  simp only [build_level_length h]
  omega

/-- `MerkleTree::new_parallel`. -/
def MerkleTree.new_parallel (h : HashFn) (leaves : List Bytes) :
    Except String MerkleTree :=
  if leaves.isEmpty then
    .error "Cannot create Merkle tree with no leaves"
  else
    .ok { root := levels_root (build_levels_parallel h leaves),
          levels := build_levels_parallel h leaves }

/-- C5.  For every hash algorithm and every leaf list, parallel construction
returns exactly the same tree (same root, same levels) as sequential
construction — including the error on an empty leaf list. -/
theorem new_parallel_eq_new (h : HashFn) (leaves : List Bytes) :
    MerkleTree.new_parallel h leaves = MerkleTree.new h leaves := by
  rw [MerkleTree.new_parallel, MerkleTree.new, build_levels_parallel_eq h leaves]

end Merkle

namespace Sig

/-- `SignatureAlgorithm`. -/
inductive SignatureAlgorithm where
  | Ed25519
  | EcdsaP256
  | RsaPss2048
  | PolygonEcdsa
deriving DecidableEq

/-- `SignatureRequest`. -/
structure SignatureRequest where
  message : List Nat
  signature : List Nat
  public_key : List Nat
  algorithm : SignatureAlgorithm
  polygon_tx_hash : Option String
deriving DecidableEq

/-- `SignatureVerificationResult`.  `verification_time_us` comes from a wall
clock in the source; it is modelled as `0`. -/
structure SignatureVerificationResult where
  valid : Bool
  algorithm : SignatureAlgorithm
  polygon_verified : Bool
  verification_time_us : Nat
  error : Option String
deriving DecidableEq

/-- `BatchSignatureRequest`. -/
structure BatchSignatureRequest where
  requests : List SignatureRequest
  fail_fast : Bool
  parallel_threshold : Nat

/-- The per-algorithm dispatch `SignatureVerifier::verify_internal`.  Its
four branches end in external cryptographic primitives
(`ed25519_dalek`, `ring`), so the whole dispatch is abstracted as a
parameter: any function from a request to `Ok(valid)` or a `CryptoError`
message. -/
abbrev VerifyInternal := SignatureRequest → Except String Bool

/-- `SignatureVerifier::verify_signature`: run `verify_internal`, turning an
error into `valid = false` with the error text; `polygon_verified` is
`polygon_tx_hash.is_some() && enable_polygon_verification`. -/
def verify_signature (vi : VerifyInternal) (epv : Bool) (r : SignatureRequest) :
    SignatureVerificationResult :=
  match vi r with
  | .ok b => ⟨b, r.algorithm, r.polygon_tx_hash.isSome && epv, 0, none⟩
  | .error e => ⟨false, r.algorithm, r.polygon_tx_hash.isSome && epv, 0, some e⟩

/-- The filler entry `verify_batch_sequential` and
`verify_batch_parallel_fail_fast` push after a fail-fast stop. -/
def skip_result : SignatureVerificationResult :=
  ⟨false, .Ed25519, false, 0, some "Skipped due to fail-fast"⟩

/-- `SignatureVerifier::verify_batch_sequential`: verify in order; with
`fail_fast` set, stop after the first invalid result and fill the remaining
positions with `skip_result`. -/
def verify_batch_sequential (vi : VerifyInternal) (epv : Bool) (ff : Bool) :
    List SignatureRequest → List SignatureVerificationResult
  | [] => []
  | r :: rest =>
      if ff && !(verify_signature vi epv r).valid then
        verify_signature vi epv r :: rest.map (fun _ => skip_result)
      else
        verify_signature vi epv r :: verify_batch_sequential vi epv ff rest

/-- The in-order scan of one chunk's results in
`verify_batch_parallel_fail_fast`: push results until and including the
first invalid one, and report whether a failure was found. -/
def scan_chunk : List SignatureVerificationResult →
    List SignatureVerificationResult × Bool
  | [] => ([], false)
  | r :: rest =>
      if !r.valid then ([r], true)
      else (r :: (scan_chunk rest).1, (scan_chunk rest).2)

/-- `batch.requests.chunks(100)`. -/
def chunks_of_100 : List SignatureRequest → List (List SignatureRequest)
  | [] => []
  | r :: rest => ((r :: rest).take 100) :: chunks_of_100 ((r :: rest).drop 100)
termination_by l => l.length
decreasing_by
  simp only [List.length_drop, List.length_cons]
  omega

/-- The chunk loop of `verify_batch_parallel_fail_fast`: each chunk is
verified by an order-preserving parallel map, scanned in order, and on the
first failure the output is padded with `skip_result` up to the request
count (`rem` is the number of output slots still to fill). -/
def go_chunks (vi : VerifyInternal) (epv : Bool) (rem : Nat) :
    List (List SignatureRequest) → List SignatureVerificationResult
  | [] => []
  | c :: cs =>
      if (scan_chunk (c.map (verify_signature vi epv))).2 then
        (scan_chunk (c.map (verify_signature vi epv))).1 ++
          List.replicate (rem - (scan_chunk (c.map (verify_signature vi epv))).1.length)
            skip_result
      else
        (scan_chunk (c.map (verify_signature vi epv))).1 ++
          go_chunks vi epv (rem - (scan_chunk (c.map (verify_signature vi epv))).1.length) cs

/-- `SignatureVerifier::verify_batch_parallel_fail_fast`. -/
def verify_batch_parallel_fail_fast (vi : VerifyInternal) (epv : Bool)
    (reqs : List SignatureRequest) : List SignatureVerificationResult :=
  go_chunks vi epv reqs.length (chunks_of_100 reqs)

/-- `SignatureVerifier::verify_batch_parallel`: fail-fast chunked mode, or a
full order-preserving parallel map. -/
def verify_batch_parallel (vi : VerifyInternal) (epv : Bool)
    (b : BatchSignatureRequest) : List SignatureVerificationResult :=
  if b.fail_fast then verify_batch_parallel_fail_fast vi epv b.requests
  else b.requests.map (verify_signature vi epv)

/-- `SignatureVerifier::verify_batch`: dispatch on
`requests.len() > parallel_threshold`. -/
def verify_batch (vi : VerifyInternal) (epv : Bool) (b : BatchSignatureRequest) :
    List SignatureVerificationResult :=
  if b.parallel_threshold < b.requests.length then verify_batch_parallel vi epv b
  else verify_batch_sequential vi epv b.fail_fast b.requests

/-- Every result in the list is valid. -/
def all_valid (l : List SignatureVerificationResult) : Prop :=
  ∀ r ∈ l, r.valid = true

/-- Normal form of a fail-fast batch output of expected length `n`: either
all entries are valid, or the output is a valid prefix, one failing entry,
and `skip_result` padding. -/
def ff_shape (n : Nat) (out : List SignatureVerificationResult) : Prop :=
  out.length = n ∧
    (all_valid out ∨
      ∃ pre bad k, out = pre ++ bad :: List.replicate k skip_result ∧
        all_valid pre ∧ bad.valid = false)

theorem shape_seq (vi : VerifyInternal) (epv : Bool) :
    ∀ reqs : List SignatureRequest,
      ff_shape reqs.length (verify_batch_sequential vi epv true reqs)
  | [] => ⟨rfl, Or.inl (by intro r hr; simp [verify_batch_sequential] at hr)⟩
  | r :: rest => by
      rcases shape_seq vi epv rest with ⟨hlen, hshape⟩
      by_cases hv : (verify_signature vi epv r).valid
      · constructor
        · simp only [verify_batch_sequential, hv]
          simp [hlen]
        · rcases hshape with hall | ⟨pre, bad, k, hout, hpre, hbad⟩
          · left
            intro x hx
            simp only [verify_batch_sequential, hv] at hx
            simp only [Bool.not_true, Bool.and_false, Bool.false_eq_true,
              if_false, List.mem_cons] at hx
            rcases hx with hx | hx
            · rw [hx]; exact hv
            · exact hall x hx
          · right
            refine ⟨verify_signature vi epv r :: pre, bad, k, ?_, ?_, hbad⟩
            · simp only [verify_batch_sequential, hv]
              simp [hout]
            · intro x hx
              rcases List.mem_cons.mp hx with hx | hx
              · rw [hx]; exact hv
              · exact hpre x hx
      · constructor
        · simp only [verify_batch_sequential, hv]
          simp
        · right
          refine ⟨[], verify_signature vi epv r, rest.length, ?_, ?_, by
            simpa using hv⟩
          · simp only [verify_batch_sequential, hv]
            simp [List.map_const]
          · intro x hx
            simp at hx

theorem scan_chunk_spec :
    ∀ l : List SignatureVerificationResult,
      (scan_chunk l = (l, false) ∧ all_valid l) ∨
      (∃ pre bad, scan_chunk l = (pre ++ [bad], true) ∧ all_valid pre ∧
        bad.valid = false ∧ pre.length + 1 ≤ l.length)
  | [] => Or.inl ⟨rfl, by intro r hr; simp at hr⟩
  | r :: rest => by
      by_cases hv : r.valid
      · rcases scan_chunk_spec rest with ⟨hsc, hall⟩ | ⟨pre, bad, hsc, hpre, hbad, hle⟩
        · left
          constructor
          · simp [scan_chunk, hv, hsc]
          · intro x hx
            rcases List.mem_cons.mp hx with hx | hx
            · rw [hx]; exact hv
            · exact hall x hx
        · right
          refine ⟨r :: pre, bad, ?_, ?_, hbad, by simpa using Nat.add_le_add_right hle 1⟩
          · simp [scan_chunk, hv, hsc]
          · intro x hx
            rcases List.mem_cons.mp hx with hx | hx
            · rw [hx]; exact hv
            · exact hpre x hx
      · right
        exact ⟨[], r, by simp [scan_chunk, hv], by intro x hx; simp at hx,
          by simpa using hv, by simp⟩

theorem chunks_sum :
    ∀ reqs : List SignatureRequest,
      ((chunks_of_100 reqs).map List.length).sum = reqs.length
  | [] => by simp [chunks_of_100]
  | r :: rest => by
      have hrec := chunks_sum ((r :: rest).drop 100)
      rw [chunks_of_100]
      simp only [List.map_cons, List.sum_cons, hrec, List.length_take,
        List.length_drop, List.length_cons]
      omega
termination_by reqs => reqs.length
decreasing_by
  simp only [List.length_drop, List.length_cons]
  omega

theorem shape_go (vi : VerifyInternal) (epv : Bool) :
    ∀ (cs : List (List SignatureRequest)) (rem : Nat),
      rem = (cs.map List.length).sum →
      ff_shape rem (go_chunks vi epv rem cs)
  | [], rem, hrem => by
      refine ⟨by simpa using hrem.symm, Or.inl ?_⟩
      intro r hr
      simp [go_chunks] at hr
  | c :: cs, rem, hrem => by
      have hrem2 : (cs.map List.length).sum ≤ rem := by
        simp only [List.map_cons, List.sum_cons] at hrem
        omega
      have hclen : c.length ≤ rem := by
        simp only [List.map_cons, List.sum_cons] at hrem
        omega
      rcases scan_chunk_spec (c.map (verify_signature vi epv)) with
        ⟨hsc, hall⟩ | ⟨pre, bad, hsc, hpre, hbad, hle⟩
      · have hscfst : (scan_chunk (c.map (verify_signature vi epv))).1
            = c.map (verify_signature vi epv) := by rw [hsc]
        have hscsnd : (scan_chunk (c.map (verify_signature vi epv))).2 = false := by
          rw [hsc]
        have hlen1 : (scan_chunk (c.map (verify_signature vi epv))).1.length
            = c.length := by rw [hscfst]; simp
        have hrec := shape_go vi epv cs (rem - c.length)
          (by simp only [List.map_cons, List.sum_cons] at hrem; omega)
        rcases hrec with ⟨hreclen, hrecshape⟩
        constructor
        · simp only [go_chunks, hscsnd, Bool.false_eq_true, if_false,
            List.length_append, hlen1, hreclen]
          omega
        · rcases hrecshape with hrall | ⟨pre2, bad2, k2, hout2, hpre2, hbad2⟩
          · left
            intro x hx
            simp only [go_chunks, hscsnd, Bool.false_eq_true, if_false,
              hscfst, List.length_map, List.mem_append] at hx
            rcases hx with hx | hx
            · exact hall x hx
            · exact hrall x hx
          · right
            refine ⟨c.map (verify_signature vi epv) ++ pre2, bad2, k2, ?_, ?_, hbad2⟩
            · simp only [go_chunks, hscsnd, Bool.false_eq_true, if_false,
                hscfst, List.length_map, hout2, List.append_assoc]
            · intro x hx
              rcases List.mem_append.mp hx with hx | hx
              · exact hall x hx
              · exact hpre2 x hx
      · have hscfst : (scan_chunk (c.map (verify_signature vi epv))).1
            = pre ++ [bad] := by rw [hsc]
        have hscsnd : (scan_chunk (c.map (verify_signature vi epv))).2 = true := by
          rw [hsc]
        have hlen1 : (scan_chunk (c.map (verify_signature vi epv))).1.length
            = pre.length + 1 := by rw [hscfst]; simp
        have hplen : pre.length + 1 ≤ rem := by
          have : (c.map (verify_signature vi epv)).length = c.length := by simp
          omega
        constructor
        · simp only [go_chunks, hscsnd, if_true, List.length_append, hlen1,
            List.length_replicate]
          omega
        · right
          refine ⟨pre, bad, rem - (pre.length + 1), ?_, hpre, hbad⟩
          simp only [go_chunks, hscsnd, if_true, hscfst, List.length_append,
            List.length_cons, List.length_nil, List.append_assoc,
            List.cons_append, List.nil_append]

/-- The claim's conclusion about trailing entries: if `out` has its first
invalid entry at position `i`, every later entry is exactly `skip_result`. -/
def after_first_invalid_skipped (out : List SignatureVerificationResult) : Prop :=
  ∀ i j, (∀ k, k < i → (out.getD k skip_result).valid = true) →
    (out.getD i skip_result).valid = false → i < j → j < out.length →
    out.getD j skip_result = skip_result

theorem getD_mem_of_lt {α : Type} (l : List α) (i : Nat) (d : α) (hi : i < l.length) :
    l.getD i d ∈ l := by
  rw [List.getD_eq_getElem l d hi]
  exact List.getElem_mem hi

theorem shape_implies (n : Nat) (out : List SignatureVerificationResult)
    (hs : ff_shape n out) : after_first_invalid_skipped out := by
  rcases hs with ⟨hlen, hall | ⟨pre, bad, k, hout, hpre, hbad⟩⟩
  · intro i j hbefore hbadi hij hj
    have hv := hall _ (getD_mem_of_lt out i skip_result (by omega))
    rw [hv] at hbadi
    exact Bool.noConfusion hbadi
  · intro i j hbefore hbadi hij hj
    have houtlen : out.length = pre.length + 1 + k := by
      rw [hout]; simp; omega
    have hgetpre : ∀ m, m < pre.length → out.getD m skip_result = pre.getD m skip_result := by
      intro m hm
      rw [hout]
      exact List.getD_append _ _ _ _ hm
    have hgetbad : out.getD pre.length skip_result = bad := by
      rw [hout]
      rw [List.getD_eq_getElem _ _ (by simp)]
      simp [List.getElem_append_right, le_refl]
    have hi : i = pre.length := by
      by_contra hne
      rcases Nat.lt_or_ge i pre.length with hlt | hge
      · have hv := hpre _ (getD_mem_of_lt pre i skip_result hlt)
        rw [hgetpre i hlt] at hbadi
        exact Bool.noConfusion (hv.symm.trans hbadi)
      · have hgt : pre.length < i := by omega
        have hv := hbefore pre.length hgt
        rw [hgetbad] at hv
        exact Bool.noConfusion (hbad.symm.trans hv)
    subst hi
    rw [hout]
    rw [List.getD_eq_getElem _ _ (by rw [← hout]; omega)]
    rw [List.getElem_append_right (by omega)]
    have hlt : j - pre.length - 1 < k := by omega
    simp only [List.getElem_cons]
    rw [dif_neg (by omega)]
    simp [List.getElem_replicate]

/-- C4.  For every batch with `fail_fast = true` (and any verification
primitive), `verify_batch` returns exactly one result per request, and every
entry after the first invalid result is the explicit skip entry
(`valid = false`, error "Skipped due to fail-fast"), never dropped. -/
theorem verify_batch_fail_fast_total (vi : VerifyInternal) (epv : Bool)
    (b : BatchSignatureRequest) (hff : b.fail_fast = true) :
    (verify_batch vi epv b).length = b.requests.length ∧
      after_first_invalid_skipped (verify_batch vi epv b) := by
  have hshape : ff_shape b.requests.length (verify_batch vi epv b) := by
    rw [verify_batch]
    by_cases hpar : b.parallel_threshold < b.requests.length
    · rw [if_pos hpar, verify_batch_parallel, hff, if_pos rfl,
        verify_batch_parallel_fail_fast]
      exact shape_go vi epv (chunks_of_100 b.requests) b.requests.length
        (chunks_sum b.requests).symm
    · rw [if_neg hpar, hff]
      exact shape_seq vi epv b.requests
  exact ⟨hshape.1, shape_implies _ _ hshape⟩

/-- C4 witness at a concrete input: three requests whose second one fails,
sequential path. -/
theorem verify_batch_fail_fast_total_witness :
    (verify_batch
        (fun r => .ok (r.message == [0])) false
        ⟨[⟨[0], [], [], .Ed25519, none⟩, ⟨[1], [], [], .Ed25519, none⟩,
          ⟨[2], [], [], .Ed25519, none⟩], true, 10⟩).length
      = (⟨[⟨[0], [], [], .Ed25519, none⟩, ⟨[1], [], [], .Ed25519, none⟩,
          ⟨[2], [], [], .Ed25519, none⟩], true, 10⟩ :
            BatchSignatureRequest).requests.length ∧
      after_first_invalid_skipped
        (verify_batch (fun r => .ok (r.message == [0])) false
          ⟨[⟨[0], [], [], .Ed25519, none⟩, ⟨[1], [], [], .Ed25519, none⟩,
            ⟨[2], [], [], .Ed25519, none⟩], true, 10⟩) :=
  verify_batch_fail_fast_total (fun r => .ok (r.message == [0])) false
    ⟨[⟨[0], [], [], .Ed25519, none⟩, ⟨[1], [], [], .Ed25519, none⟩,
      ⟨[2], [], [], .Ed25519, none⟩], true, 10⟩ rfl

/-- `AggregatedSignature`. -/
structure AggregatedSignature where
  signatures : List (List Nat)
  public_keys : List (List Nat)
  message : List Nat
  threshold : Nat

/-- `AggregatedVerificationResult`. -/
structure AggregatedVerificationResult where
  valid : Bool
  valid_signatures : Nat
  total_signatures : Nat
  threshold_met : Bool
  individual_results : List SignatureVerificationResult
  verification_time_us : Nat
  error : Option String

/-- The request list built by `verify_aggregated_signature`: each signature
zipped with its public key, all sharing the aggregated message. -/
def agg_requests (agg : AggregatedSignature) (alg : SignatureAlgorithm) :
    List SignatureRequest :=
  (agg.signatures.zip agg.public_keys).map
    (fun q => ⟨agg.message, q.1, q.2, alg, none⟩)

/-- `SignatureVerifier::verify_aggregated_signature`: length-mismatch error,
otherwise verify the batch (fail-fast off, parallel threshold 10), count the
valid results, and compare the count with the threshold. -/
def verify_aggregated_signature (vi : VerifyInternal) (epv : Bool)
    (agg : AggregatedSignature) (alg : SignatureAlgorithm) :
    AggregatedVerificationResult :=
  if agg.signatures.length ≠ agg.public_keys.length then
    ⟨false, 0, agg.signatures.length, false, [], 0,
      some "Signature and public key count mismatch"⟩
  else
    let results := verify_batch vi epv ⟨agg_requests agg alg, false, 10⟩
    let valid_count := results.countP (fun r => r.valid)
    ⟨decide (agg.threshold ≤ valid_count), valid_count, agg.signatures.length,
      decide (agg.threshold ≤ valid_count), results, 0, none⟩

theorem seq_no_ff (vi : VerifyInternal) (epv : Bool) :
    ∀ reqs : List SignatureRequest,
      verify_batch_sequential vi epv false reqs = reqs.map (verify_signature vi epv)
  | [] => rfl
  | r :: rest => by
      simp [verify_batch_sequential, seq_no_ff vi epv rest]

theorem batch_no_ff (vi : VerifyInternal) (epv : Bool) (b : BatchSignatureRequest)
    (hff : b.fail_fast = false) :
    verify_batch vi epv b = b.requests.map (verify_signature vi epv) := by
  rw [verify_batch]
  split
  · rw [verify_batch_parallel, hff]
    simp
  · rw [hff]
    exact seq_no_ff vi epv b.requests

theorem countP_zip_eq_filter_range (p : List Nat → List Nat → Bool) :
    ∀ (l1 l2 : List (List Nat)), l1.length = l2.length →
      (l1.zip l2).countP (fun q => p q.1 q.2)
      = ((List.range l1.length).filter
          (fun i => p (l1.getD i []) (l2.getD i []))).length
  | [], l2, h => by simp
  | x :: l1, [], h => by simp at h
  | x :: l1, y :: l2, h => by
      have hrec := countP_zip_eq_filter_range p l1 l2 (by simpa using h)
      have hmap : (List.range l1.length).map Nat.succ
          = (List.range l1.length).map (fun i => i + 1) := by
        simp [Nat.succ_eq_add_one]
      have hfm : ((List.range l1.length).map (fun i => i + 1)).filter
            (fun i => p ((x :: l1).getD i []) ((y :: l2).getD i []))
          = ((List.range l1.length).filter
              (fun i => p (l1.getD i []) (l2.getD i []))).map (fun i => i + 1) := by
        rw [List.filter_map]
        simp only [Function.comp_def, List.getD_cons_succ]
      simp only [List.zip_cons_cons, List.countP_cons, List.length_cons,
        List.range_succ_eq_map, List.filter_cons, List.getD_cons_zero, hmap, hfm]
      by_cases hp : p x y
      · simp [hp, hrec]
      · simp [hp, hrec]

/-- C6.  When the signature and key lists have equal length,
`verify_aggregated_signature` reports as `valid_signatures` exactly the
number of indices whose (signature, public key) pair individually verifies
against the shared message, reports `threshold_met` exactly when that count
reaches the threshold, and `valid` equals `threshold_met`. -/
theorem aggregated_signature_counts (vi : VerifyInternal) (epv : Bool)
    (agg : AggregatedSignature) (alg : SignatureAlgorithm)
    (hlen : agg.signatures.length = agg.public_keys.length) :
    (verify_aggregated_signature vi epv agg alg).valid_signatures
      = ((List.range agg.signatures.length).filter
          (fun i => (verify_signature vi epv
            ⟨agg.message, agg.signatures.getD i [], agg.public_keys.getD i [],
              alg, none⟩).valid)).length
    ∧ ((verify_aggregated_signature vi epv agg alg).threshold_met = true ↔
        agg.threshold ≤ (verify_aggregated_signature vi epv agg alg).valid_signatures)
    ∧ (verify_aggregated_signature vi epv agg alg).valid
        = (verify_aggregated_signature vi epv agg alg).threshold_met := by
  have hcount : (verify_batch vi epv ⟨agg_requests agg alg, false, 10⟩).countP
        (fun r => r.valid)
      = ((List.range agg.signatures.length).filter
          (fun i => (verify_signature vi epv
            ⟨agg.message, agg.signatures.getD i [], agg.public_keys.getD i [],
              alg, none⟩).valid)).length := by
    rw [batch_no_ff vi epv _ rfl]
    show ((agg_requests agg alg).map (verify_signature vi epv)).countP
        (fun r => r.valid) = _
    rw [agg_requests, List.countP_map, List.countP_map]
    exact countP_zip_eq_filter_range
      (fun s k => (verify_signature vi epv ⟨agg.message, s, k, alg, none⟩).valid)
      agg.signatures agg.public_keys hlen
  rw [verify_aggregated_signature, if_neg (by omega)]
  refine ⟨hcount, ?_, rfl⟩
  simp only [hcount, decide_eq_true_eq]

/-- C6 witness at a concrete input: two pairs, one of which verifies, with
threshold 1. -/
theorem aggregated_signature_counts_witness :
    (verify_aggregated_signature (fun r => .ok (r.signature == [1])) false
        ⟨[[1], [2]], [[3], [4]], [9], 1⟩ .Ed25519).valid_signatures
      = ((List.range ([[1], [2]] : List (List Nat)).length).filter
          (fun i => (verify_signature (fun r => .ok (r.signature == [1])) false
            ⟨[9], ([[1], [2]] : List (List Nat)).getD i [],
              ([[3], [4]] : List (List Nat)).getD i [], .Ed25519, none⟩).valid)).length
    ∧ ((verify_aggregated_signature (fun r => .ok (r.signature == [1])) false
          ⟨[[1], [2]], [[3], [4]], [9], 1⟩ .Ed25519).threshold_met = true ↔
        (⟨[[1], [2]], [[3], [4]], [9], 1⟩ : AggregatedSignature).threshold
          ≤ (verify_aggregated_signature (fun r => .ok (r.signature == [1])) false
              ⟨[[1], [2]], [[3], [4]], [9], 1⟩ .Ed25519).valid_signatures)
    ∧ (verify_aggregated_signature (fun r => .ok (r.signature == [1])) false
          ⟨[[1], [2]], [[3], [4]], [9], 1⟩ .Ed25519).valid
        = (verify_aggregated_signature (fun r => .ok (r.signature == [1])) false
            ⟨[[1], [2]], [[3], [4]], [9], 1⟩ .Ed25519).threshold_met :=
  aggregated_signature_counts (fun r => .ok (r.signature == [1])) false
    ⟨[[1], [2]], [[3], [4]], [9], 1⟩ .Ed25519 rfl

end Sig

namespace Trust

/-- `TrustActivityType`. -/
inductive TrustActivityType where
  | ComplianceVerification
  | ExpertValidation
  | RegulatoryApproval
  | CrossPlatformAttestation
  | ContinuousMonitoring
  | AuditCompletion
  | PolygonVerification
deriving DecidableEq

/-- `TrustActivity`.  The unused `metadata` map is omitted.  Faithfulness of
the time handling requires `timestamp ≤ now`: the source computes
`current_time - activity.timestamp` on `u64`, which would overflow for a
future timestamp. -/
structure TrustActivity where
  activity_type : TrustActivityType
  timestamp : Nat
  value : ℝ
  confidence : ℝ
  verifier_reputation : ℝ
  polygon_tx_hash : Option String

/-- `TrustCalculatorConfig`.  `activity_weights` is the `HashMap` lookup:
`none` for an absent type. -/
structure TrustCalculatorConfig where
  activity_weights : TrustActivityType → Option ℝ
  time_decay_factor : ℝ
  reputation_multiplier : ℝ
  confidence_threshold : ℝ
  polygon_verification_boost : ℝ
  parallel_threshold : Nat

/-- The seven weights inserted by `TrustCalculatorConfig::default`. -/
def default_weights : TrustActivityType → Option ℝ
  | .ComplianceVerification => some 0.25
  | .ExpertValidation => some 0.20
  | .RegulatoryApproval => some 0.30
  | .CrossPlatformAttestation => some 0.10
  | .ContinuousMonitoring => some 0.05
  | .AuditCompletion => some 0.15
  | .PolygonVerification => some 0.35

/-- `TrustCalculatorConfig::default`. -/
def default_config : TrustCalculatorConfig :=
  ⟨default_weights, 0.95, 1.2, 0.7, 1.5, 100⟩

/-- `config.activity_weights.get(..).copied().unwrap_or(0.1)`. -/
noncomputable def base_weight (cfg : TrustCalculatorConfig) (a : TrustActivity) : ℝ :=
  (cfg.activity_weights a.activity_type).getD 0.1

/-- `time_decay_factor.powf(time_diff / 86400.0)` with
`time_diff = current_time - activity.timestamp`. -/
noncomputable def time_decay (cfg : TrustCalculatorConfig) (now : Nat)
    (a : TrustActivity) : ℝ :=
  cfg.time_decay_factor ^ ((((now - a.timestamp : Nat) : ℝ)) / 86400)

/-- The confidence factor: full confidence at or above the threshold, halved
below it. -/
noncomputable def confidence_factor (cfg : TrustCalculatorConfig)
    (a : TrustActivity) : ℝ :=
  if cfg.confidence_threshold ≤ a.confidence then a.confidence
  else a.confidence * 0.5

/-- `1.0 + (reputation - 0.5) * reputation_multiplier`. -/
def reputation_factor (cfg : TrustCalculatorConfig) (a : TrustActivity) : ℝ :=
  1 + (a.verifier_reputation - 0.5) * cfg.reputation_multiplier

/-- The Polygon verification boost factor. -/
def polygon_factor (cfg : TrustCalculatorConfig) (a : TrustActivity) : ℝ :=
  if a.polygon_tx_hash.isSome then cfg.polygon_verification_boost else 1

/-- `final_weight` of one activity in `calculate_sequential`. -/
noncomputable def final_weight (cfg : TrustCalculatorConfig) (now : Nat)
    (a : TrustActivity) : ℝ :=
  base_weight cfg a * time_decay cfg now a * confidence_factor cfg a *
    reputation_factor cfg a * polygon_factor cfg a

/-- `contribution = activity.value * final_weight`. -/
noncomputable def contribution (cfg : TrustCalculatorConfig) (now : Nat)
    (a : TrustActivity) : ℝ :=
  a.value * final_weight cfg now a

noncomputable def weighted_sum (cfg : TrustCalculatorConfig) (now : Nat)
    (acts : List TrustActivity) : ℝ :=
  (acts.map (contribution cfg now)).sum

noncomputable def total_weight (cfg : TrustCalculatorConfig) (now : Nat)
    (acts : List TrustActivity) : ℝ :=
  (acts.map (final_weight cfg now)).sum

/-- `raw_score`: the weighted average, or `0` when the total weight is not
positive. -/
noncomputable def raw_score (cfg : TrustCalculatorConfig) (now : Nat)
    (acts : List TrustActivity) : ℝ :=
  if 0 < total_weight cfg now acts then
    weighted_sum cfg now acts / total_weight cfg now acts
  else 0

/-- `(raw_score * 100.0).min(100.0).max(0.0)`. -/
noncomputable def normalized_score (cfg : TrustCalculatorConfig) (now : Nat)
    (acts : List TrustActivity) : ℝ :=
  max (min (raw_score cfg now acts * 100) 100) 0

/-- The count of activities carrying a `polygon_tx_hash`. -/
def polygon_count (acts : List TrustActivity) : Nat :=
  acts.countP (fun a => a.polygon_tx_hash.isSome)

/-- The per-type contribution map, modelled as a total function (an absent
`HashMap` entry reads as `0`). -/
noncomputable def activity_breakdown (cfg : TrustCalculatorConfig) (now : Nat)
    (acts : List TrustActivity) : TrustActivityType → ℝ :=
  fun t => ((acts.filter (fun a => a.activity_type = t)).map (contribution cfg now)).sum

/-- `TrustCalculator::calculate_confidence`: a fixed blend of mean
confidence, mean reputation, and the externally-verified fraction, clamped
above by `1.0` only. -/
noncomputable def calculate_confidence (acts : List TrustActivity) : ℝ :=
  if acts.isEmpty then 0
  else
    min ((acts.map (fun a => a.confidence)).sum / (acts.length : ℝ) * 0.4
      + (acts.map (fun a => a.verifier_reputation)).sum / (acts.length : ℝ) * 0.3
      + (polygon_count acts : ℝ) / (acts.length : ℝ) * 0.3) 1

/-- `TrustScore`.  The `activity_breakdown` `HashMap` is modelled as a total
function and `trust_hash` abstractly (see `calculate_sequential`). -/
structure TrustScore where
  score : ℝ
  confidence : ℝ
  total_activities : Nat
  polygon_verified_activities : Nat
  activity_breakdown : TrustActivityType → ℝ
  calculation_timestamp : Nat
  trust_hash : String
  verification_method : String

/-- `TrustScore::default`. -/
def TrustScore.default : TrustScore :=
  ⟨0, 0, 0, 0, fun _ => 0, 0, "", "velocity_trust_protocol_v1"⟩

/-- The content hash `calculate_trust_hash` computes with the Blake3 engine
over a textual encoding of the score and activities; it is abstracted as a
parameter, since its value feeds no other computation. -/
abbrev TrustHashFn := List TrustActivity → ℝ → String

/-- `TrustCalculator::calculate_sequential`. -/
noncomputable def calculate_sequential (cfg : TrustCalculatorConfig)
    (thash : TrustHashFn) (now : Nat) (acts : List TrustActivity) : TrustScore :=
  { score := normalized_score cfg now acts,
    confidence := calculate_confidence acts,
    total_activities := acts.length,
    polygon_verified_activities := polygon_count acts,
    activity_breakdown := activity_breakdown cfg now acts,
    calculation_timestamp := now,
    trust_hash := thash acts (normalized_score cfg now acts),
    verification_method := "velocity_trust_protocol_v1" }

/-- The per-activity tuples collected by the parallel path
`TrustCalculator::calculate_parallel` (contribution, weight, is-verified,
type, contribution), in input order. -/
noncomputable def parallel_results (cfg : TrustCalculatorConfig) (now : Nat)
    (acts : List TrustActivity) :
    List (ℝ × ℝ × Bool × TrustActivityType × ℝ) :=
  acts.map (fun a => (contribution cfg now a, final_weight cfg now a,
    a.polygon_tx_hash.isSome, a.activity_type, contribution cfg now a))

/-- `TrustCalculator::calculate_parallel`: aggregate the tuples.  Real
addition is associative and commutative, so the parallel reduction is the
same sum. -/
noncomputable def calculate_parallel (cfg : TrustCalculatorConfig)
    (thash : TrustHashFn) (now : Nat) (acts : List TrustActivity) : TrustScore :=
  { score := max (min ((if 0 < ((parallel_results cfg now acts).map
          (fun r => r.2.1)).sum then
        ((parallel_results cfg now acts).map (fun r => r.1)).sum /
          ((parallel_results cfg now acts).map (fun r => r.2.1)).sum
      else 0) * 100) 100) 0,
    confidence := calculate_confidence acts,
    total_activities := acts.length,
    polygon_verified_activities := ((parallel_results cfg now acts).countP
      (fun r => r.2.2.1)),
    activity_breakdown := fun t => (((parallel_results cfg now acts).filter
      (fun r => r.2.2.2.1 = t)).map (fun r => r.2.2.2.2)).sum,
    calculation_timestamp := now,
    trust_hash := thash acts (max (min ((if 0 < ((parallel_results cfg now acts).map
          (fun r => r.2.1)).sum then
        ((parallel_results cfg now acts).map (fun r => r.1)).sum /
          ((parallel_results cfg now acts).map (fun r => r.2.1)).sum
      else 0) * 100) 100) 0),
    verification_method := "velocity_trust_protocol_v1" }

/-- `TrustCalculator::calculate_trust_score`: empty input returns the
default score; otherwise dispatch on `activities.len() > parallel_threshold`.
The Rust signature is `Result`, but no branch can fail (the hash engine is
total), so every input yields `Ok`. -/
noncomputable def calculate_trust_score (cfg : TrustCalculatorConfig)
    (thash : TrustHashFn) (now : Nat) (acts : List TrustActivity) :
    Except String TrustScore :=
  if acts.isEmpty then .ok TrustScore.default
  else if cfg.parallel_threshold < acts.length then
    .ok (calculate_parallel cfg thash now acts)
  else .ok (calculate_sequential cfg thash now acts)

theorem parallel_eq_sequential (cfg : TrustCalculatorConfig)
    (thash : TrustHashFn) (now : Nat) (acts : List TrustActivity) :
    calculate_parallel cfg thash now acts = calculate_sequential cfg thash now acts := by
  have h1 : ((parallel_results cfg now acts).map (fun r => r.1)).sum
      = weighted_sum cfg now acts := by
    rw [parallel_results, List.map_map, weighted_sum]
    rfl
  have h2 : ((parallel_results cfg now acts).map (fun r => r.2.1)).sum
      = total_weight cfg now acts := by
    rw [parallel_results, List.map_map, total_weight]
    rfl
  have h3 : ((parallel_results cfg now acts).countP (fun r => r.2.2.1))
      = polygon_count acts := by
    rw [parallel_results, List.countP_map, polygon_count]
    rfl
  have h4 : (fun t => (((parallel_results cfg now acts).filter
        (fun r => r.2.2.2.1 = t)).map (fun r => r.2.2.2.2)).sum)
      = activity_breakdown cfg now acts := by
    funext t
    rw [parallel_results, activity_breakdown, List.filter_map, List.map_map]
    rfl
  rw [calculate_parallel, calculate_sequential]
  simp only [h1, h2, h3, h4, normalized_score, raw_score]

/-- C10.  The empty activity list succeeds and returns the default
`TrustScore`: score 0, confidence 0, zero counts, empty breakdown, and an
empty trust hash. -/
theorem empty_activities_default (cfg : TrustCalculatorConfig)
    (thash : TrustHashFn) (now : Nat) :
    calculate_trust_score cfg thash now [] = .ok TrustScore.default ∧
    TrustScore.default.score = 0 ∧
    TrustScore.default.confidence = 0 ∧
    TrustScore.default.total_activities = 0 ∧
    TrustScore.default.polygon_verified_activities = 0 ∧
    TrustScore.default.activity_breakdown = (fun _ => 0) ∧
    TrustScore.default.trust_hash = "" := by
  refine ⟨?_, rfl, rfl, rfl, rfl, rfl, rfl⟩
  rw [calculate_trust_score]
  rfl

/-- Any successful non-empty computation yields the sequential score (for
large inputs via `parallel_eq_sequential`). -/
theorem ok_eq_sequential (cfg : TrustCalculatorConfig) (thash : TrustHashFn)
    (now : Nat) (acts : List TrustActivity) (s : TrustScore)
    (hok : calculate_trust_score cfg thash now acts = .ok s)
    (hne : acts ≠ []) :
    s = calculate_sequential cfg thash now acts := by
  rw [calculate_trust_score] at hok
  rw [if_neg (by simp [List.isEmpty_iff, hne])] at hok
  by_cases hpar : cfg.parallel_threshold < acts.length
  · rw [if_pos hpar, parallel_eq_sequential] at hok
    exact (Except.ok.inj hok).symm
  · rw [if_neg hpar] at hok
    exact (Except.ok.inj hok).symm

/-- The activity used by the C9 counterexample: a negative confidence, all
other fields inert. -/
def cex_act : TrustActivity :=
  ⟨.ComplianceVerification, 0, 0, -1, 0, none⟩

/-- C9 counterexample.  With an activity of confidence `-1` (arbitrary field
values are allowed by the claim), the returned `confidence` is negative:
`calculate_confidence` clamps only from above. -/
theorem trust_confidence_not_bounded_cex :
    ∃ s, calculate_trust_score default_config (fun _ _ => "") 0 [cex_act]
        = .ok s ∧ s.confidence < 0 := by
  refine ⟨calculate_sequential default_config (fun _ _ => "") 0 [cex_act], ?_, ?_⟩
  · rw [calculate_trust_score]
    norm_num [default_config]
  · show calculate_confidence [cex_act] < 0
    rw [calculate_confidence]
    norm_num [polygon_count, cex_act, List.countP_cons]

/-- C9 (amended).  The returned `score` always lies in `[0, 100]`; the
returned `confidence` lies in `[0, 1]` provided every activity's confidence
and verifier reputation are nonnegative (the upper clamp needs no
hypothesis; the lower bound fails for negative inputs, see the
counterexample). -/
theorem trust_score_bounds (cfg : TrustCalculatorConfig) (thash : TrustHashFn)
    (now : Nat) (acts : List TrustActivity) (s : TrustScore)
    (hok : calculate_trust_score cfg thash now acts = .ok s) :
    (0 ≤ s.score ∧ s.score ≤ 100) ∧
    ((∀ a ∈ acts, 0 ≤ a.confidence ∧ 0 ≤ a.verifier_reputation) →
      0 ≤ s.confidence ∧ s.confidence ≤ 1) := by
  rcases List.eq_nil_or_concat acts with hnil | _
  case inl =>
    subst hnil
    rw [calculate_trust_score] at hok
    have hs : s = TrustScore.default := (Except.ok.inj hok).symm
    subst hs
    refine ⟨by norm_num [TrustScore.default], fun _ => by norm_num [TrustScore.default]⟩
  case inr h0 =>
    have hne : acts ≠ [] := by
      rcases h0 with ⟨l, b, hl⟩
      subst hl
      simp
    have hs := ok_eq_sequential cfg thash now acts s hok hne
    subst hs
    constructor
    · constructor
      · exact le_max_right _ 0
      · exact max_le (min_le_right _ 100) (by norm_num)
    · intro hb
      show 0 ≤ calculate_confidence acts ∧ calculate_confidence acts ≤ 1
      rw [calculate_confidence, if_neg (by simp [List.isEmpty_iff, hne])]
      have hlenpos : (0:ℝ) < acts.length := by
        have : acts.length ≠ 0 := by simpa using hne
        positivity
      have hsc : 0 ≤ (acts.map (fun a => a.confidence)).sum := by
        apply List.sum_nonneg
        intro x hx
        obtain ⟨b, hbm, rfl⟩ := List.mem_map.mp hx
        exact (hb b hbm).1
      have hsr : 0 ≤ (acts.map (fun a => a.verifier_reputation)).sum := by
        apply List.sum_nonneg
        intro x hx
        obtain ⟨b, hbm, rfl⟩ := List.mem_map.mp hx
        exact (hb b hbm).2
      have hpc : (0:ℝ) ≤ (polygon_count acts : ℝ) := by positivity
      constructor
      · apply le_min _ (by norm_num)
        have t1 : (0:ℝ) ≤ (acts.map (fun a => a.confidence)).sum / (acts.length : ℝ) * 0.4 := by
          apply mul_nonneg (div_nonneg hsc (le_of_lt hlenpos)) (by norm_num)
        have t2 : (0:ℝ) ≤ (acts.map (fun a => a.verifier_reputation)).sum / (acts.length : ℝ) * 0.3 := by
          apply mul_nonneg (div_nonneg hsr (le_of_lt hlenpos)) (by norm_num)
        have t3 : (0:ℝ) ≤ (polygon_count acts : ℝ) / (acts.length : ℝ) * 0.3 := by
          apply mul_nonneg (div_nonneg hpc (le_of_lt hlenpos)) (by norm_num)
        linarith
      · exact min_le_right _ 1

/-- C9 witness: the empty list gives the default score, whose bounds follow
from the theorem. -/
theorem trust_score_bounds_witness :
    (0 ≤ TrustScore.default.score ∧ TrustScore.default.score ≤ 100) ∧
    ((∀ a ∈ ([] : List TrustActivity), 0 ≤ a.confidence ∧ 0 ≤ a.verifier_reputation) →
      0 ≤ TrustScore.default.confidence ∧ TrustScore.default.confidence ≤ 1) :=
  trust_score_bounds default_config (fun _ _ => "") 0 [] TrustScore.default rfl

theorem default_base_weight_pos (a : TrustActivity) :
    0 < base_weight default_config a := by
  rw [base_weight]
  cases h : a.activity_type <;> norm_num [default_config, default_weights]

theorem default_time_decay_pos (now : Nat) (a : TrustActivity) :
    0 < time_decay default_config now a := by
  rw [time_decay]
  exact Real.rpow_pos_of_pos (by norm_num [default_config]) _

theorem confidence_factor_nonneg (cfg : TrustCalculatorConfig)
    (a : TrustActivity) (hc : 0 ≤ a.confidence) :
    0 ≤ confidence_factor cfg a := by
  rw [confidence_factor]
  split <;> nlinarith

theorem default_reputation_factor_nonneg (a : TrustActivity)
    (hr : 0 ≤ a.verifier_reputation) :
    0 ≤ reputation_factor default_config a := by
  rw [reputation_factor]
  norm_num [default_config]
  nlinarith

theorem default_polygon_factor_nonneg (a : TrustActivity) :
    0 ≤ polygon_factor default_config a := by
  rw [polygon_factor]
  split <;> norm_num [default_config]

theorem final_weight_nonneg (now : Nat) (a : TrustActivity)
    (hc : 0 ≤ a.confidence) (hr : 0 ≤ a.verifier_reputation) :
    0 ≤ final_weight default_config now a := by
  rw [final_weight]
  exact mul_nonneg (mul_nonneg (mul_nonneg (mul_nonneg
    (le_of_lt (default_base_weight_pos a))
    (le_of_lt (default_time_decay_pos now a)))
    (confidence_factor_nonneg default_config a hc))
    (default_reputation_factor_nonneg a hr))
    (default_polygon_factor_nonneg a)

theorem confidence_factor_mono (cfg : TrustCalculatorConfig)
    (a a2 : TrustActivity) (h0 : 0 ≤ a.confidence)
    (hc : a.confidence ≤ a2.confidence) :
    confidence_factor cfg a ≤ confidence_factor cfg a2 := by
  rw [confidence_factor, confidence_factor]
  split_ifs with h1 h2 h2 <;> nlinarith

theorem default_reputation_factor_mono (a a2 : TrustActivity)
    (hr : a.verifier_reputation ≤ a2.verifier_reputation) :
    reputation_factor default_config a ≤ reputation_factor default_config a2 := by
  rw [reputation_factor, reputation_factor]
  norm_num [default_config]
  nlinarith

theorem final_weight_mono (now : Nat) (a a2 : TrustActivity)
    (hty : a2.activity_type = a.activity_type)
    (hts : a2.timestamp = a.timestamp)
    (hc0 : 0 ≤ a.confidence) (hr0 : 0 ≤ a.verifier_reputation)
    (hc0b : 0 ≤ a2.confidence) (hr0b : 0 ≤ a2.verifier_reputation)
    (hcf : confidence_factor default_config a ≤ confidence_factor default_config a2)
    (hrf : reputation_factor default_config a ≤ reputation_factor default_config a2)
    (hpf : polygon_factor default_config a ≤ polygon_factor default_config a2) :
    final_weight default_config now a ≤ final_weight default_config now a2 := by
  have hbw : base_weight default_config a2 = base_weight default_config a := by
    rw [base_weight, base_weight, hty]
  have htd : time_decay default_config now a2 = time_decay default_config now a := by
    rw [time_decay, time_decay, hts]
  rw [final_weight, final_weight, hbw, htd]
  have hC : 0 ≤ base_weight default_config a * time_decay default_config now a :=
    mul_nonneg (le_of_lt (default_base_weight_pos a))
      (le_of_lt (default_time_decay_pos now a))
  have hcfa : 0 ≤ confidence_factor default_config a :=
    confidence_factor_nonneg default_config a hc0
  have hcfb : 0 ≤ confidence_factor default_config a2 :=
    confidence_factor_nonneg default_config a2 hc0b
  have hrfa : 0 ≤ reputation_factor default_config a :=
    default_reputation_factor_nonneg a hr0
  have hrfb : 0 ≤ reputation_factor default_config a2 :=
    default_reputation_factor_nonneg a2 hr0b
  have hpfa : 0 ≤ polygon_factor default_config a :=
    default_polygon_factor_nonneg a
  have hpfb : 0 ≤ polygon_factor default_config a2 :=
    default_polygon_factor_nonneg a2
  have s1 : base_weight default_config a * time_decay default_config now a *
        confidence_factor default_config a ≤
      base_weight default_config a * time_decay default_config now a *
        confidence_factor default_config a2 :=
    mul_le_mul_of_nonneg_left hcf hC
  have s2 : base_weight default_config a * time_decay default_config now a *
        confidence_factor default_config a2 * reputation_factor default_config a ≤
      base_weight default_config a * time_decay default_config now a *
        confidence_factor default_config a2 * reputation_factor default_config a2 :=
    mul_le_mul_of_nonneg_left hrf (mul_nonneg hC hcfb)
  calc base_weight default_config a * time_decay default_config now a *
        confidence_factor default_config a * reputation_factor default_config a *
        polygon_factor default_config a
      ≤ base_weight default_config a * time_decay default_config now a *
        confidence_factor default_config a2 * reputation_factor default_config a *
        polygon_factor default_config a := by
        exact mul_le_mul_of_nonneg_right (mul_le_mul_of_nonneg_right s1 hrfa) hpfa
    _ ≤ base_weight default_config a * time_decay default_config now a *
        confidence_factor default_config a2 * reputation_factor default_config a2 *
        polygon_factor default_config a := mul_le_mul_of_nonneg_right s2 hpfa
    _ ≤ base_weight default_config a * time_decay default_config now a *
        confidence_factor default_config a2 * reputation_factor default_config a2 *
        polygon_factor default_config a2 :=
        mul_le_mul_of_nonneg_left hpf
          (mul_nonneg (mul_nonneg hC hcfb) hrfb)

theorem weighted_avg_mono (S W v w w2 : ℝ) (hW : 0 ≤ W) (hw : 0 ≤ w)
    (hww2 : w ≤ w2) (hSv : S ≤ v * W) (hpos : 0 < W + w) :
    (S + v * w) / (W + w) ≤ (S + v * w2) / (W + w2) := by
  have hpos2 : 0 < W + w2 := by linarith
  rw [div_le_div_iff₀ hpos hpos2]
  nlinarith [mul_nonneg (sub_nonneg.mpr hww2) (sub_nonneg.mpr hSv)]

theorem weighted_sum_le (cfg : TrustCalculatorConfig) (now : Nat) (v : ℝ) :
    ∀ acts : List TrustActivity,
      (∀ b ∈ acts, b.value ≤ v ∧ 0 ≤ final_weight cfg now b) →
      weighted_sum cfg now acts ≤ v * total_weight cfg now acts
  | [] => by simp [weighted_sum, total_weight]
  | b :: l => fun h => by
      have hb := h b (by simp)
      have hl := weighted_sum_le cfg now v l (fun x hx => h x (by simp [hx]))
      have hcb : contribution cfg now b ≤ v * final_weight cfg now b := by
        rw [contribution]
        exact mul_le_mul_of_nonneg_right hb.1 hb.2
      simp only [weighted_sum, total_weight, List.map_cons, List.sum_cons] at hl ⊢
      have hring : v * (final_weight cfg now b + (l.map (final_weight cfg now)).sum)
          = v * final_weight cfg now b + v * (l.map (final_weight cfg now)).sum := by
        ring
      rw [hring]
      exact add_le_add hcb hl

theorem weighted_sum_middle (cfg : TrustCalculatorConfig) (now : Nat)
    (pre post : List TrustActivity) (a : TrustActivity) :
    weighted_sum cfg now (pre ++ a :: post)
      = (weighted_sum cfg now pre + weighted_sum cfg now post)
        + a.value * final_weight cfg now a := by
  simp only [weighted_sum, List.map_append, List.sum_append, List.map_cons,
    List.sum_cons, contribution]
  ring

theorem total_weight_middle (cfg : TrustCalculatorConfig) (now : Nat)
    (pre post : List TrustActivity) (a : TrustActivity) :
    total_weight cfg now (pre ++ a :: post)
      = (total_weight cfg now pre + total_weight cfg now post)
        + final_weight cfg now a := by
  simp only [total_weight, List.map_append, List.sum_append, List.map_cons,
    List.sum_cons]
  ring

theorem total_weight_nonneg (cfg : TrustCalculatorConfig) (now : Nat)
    (acts : List TrustActivity)
    (h : ∀ b ∈ acts, 0 ≤ final_weight cfg now b) :
    0 ≤ total_weight cfg now acts := by
  rw [total_weight]
  apply List.sum_nonneg
  intro x hx
  obtain ⟨b, hbm, rfl⟩ := List.mem_map.mp hx
  exact h b hbm

theorem normalized_mono_core (now : Nat) (pre post : List TrustActivity)
    (a a2 : TrustActivity) (hval : a2.value = a.value)
    (hfw : final_weight default_config now a ≤ final_weight default_config now a2)
    (hfwa : 0 ≤ final_weight default_config now a)
    (hother : ∀ b ∈ pre ++ post, b.value ≤ a.value ∧
      0 ≤ final_weight default_config now b) :
    normalized_score default_config now (pre ++ a :: post)
      ≤ normalized_score default_config now (pre ++ a2 :: post) := by
  by_cases hpos : 0 < total_weight default_config now (pre ++ a :: post)
  · have hW0 : 0 ≤ total_weight default_config now pre + total_weight default_config now post := by
      have h1 := total_weight_nonneg default_config now pre
        (fun b hb => (hother b (by simp [hb])).2)
      have h2 := total_weight_nonneg default_config now post
        (fun b hb => (hother b (by simp [hb])).2)
      linarith
    have hSv : weighted_sum default_config now pre + weighted_sum default_config now post
        ≤ a.value * (total_weight default_config now pre + total_weight default_config now post) := by
      have h1 := weighted_sum_le default_config now a.value pre
        (fun b hb => hother b (by simp [hb]))
      have h2 := weighted_sum_le default_config now a.value post
        (fun b hb => hother b (by simp [hb]))
      nlinarith
    have hpos1 : 0 < (total_weight default_config now pre
        + total_weight default_config now post) + final_weight default_config now a := by
      rw [total_weight_middle] at hpos
      exact hpos
    have hpos2 : 0 < total_weight default_config now (pre ++ a2 :: post) := by
      rw [total_weight_middle]
      linarith
    have hq : weighted_sum default_config now (pre ++ a :: post)
          / total_weight default_config now (pre ++ a :: post)
        ≤ weighted_sum default_config now (pre ++ a2 :: post)
          / total_weight default_config now (pre ++ a2 :: post) := by
      rw [weighted_sum_middle, total_weight_middle, weighted_sum_middle,
        total_weight_middle, hval]
      exact weighted_avg_mono _ _ a.value _ _ hW0 hfwa hfw hSv hpos1
    rw [normalized_score, normalized_score, raw_score, raw_score,
      if_pos hpos, if_pos hpos2]
    exact max_le_max (min_le_min (mul_le_mul_of_nonneg_right hq (by norm_num))
      le_rfl) le_rfl
  · rw [normalized_score, raw_score, if_neg hpos]
    rw [show max (min ((0:ℝ) * 100) 100) 0 = 0 by norm_num]
    exact le_max_right _ 0

/-- C2 (amended).  With the default configuration, raising one activity's
confidence, raising its verifier reputation, or adding an external
verification marker (everything else fixed) never decreases the score,
provided every activity has nonnegative confidence and reputation and the
modified activity's value is maximal in the list.  Without the value-side
condition the claim is false (see the counterexample): the score is a
weighted average, so up-weighting a low-value activity drags it down. -/
theorem trust_score_monotone (thash : TrustHashFn) (now : Nat)
    (pre post : List TrustActivity) (a a2 : TrustActivity) (s s2 : TrustScore)
    (hty : a2.activity_type = a.activity_type)
    (hts : a2.timestamp = a.timestamp)
    (hval : a2.value = a.value)
    (hmode :
      (a.confidence ≤ a2.confidence ∧
        a2.verifier_reputation = a.verifier_reputation ∧
        a2.polygon_tx_hash = a.polygon_tx_hash) ∨
      (a2.confidence = a.confidence ∧
        a.verifier_reputation ≤ a2.verifier_reputation ∧
        a2.polygon_tx_hash = a.polygon_tx_hash) ∨
      (a2.confidence = a.confidence ∧
        a2.verifier_reputation = a.verifier_reputation ∧
        a.polygon_tx_hash = none ∧ a2.polygon_tx_hash.isSome))
    (hbounds : ∀ b ∈ pre ++ a :: post,
      0 ≤ b.confidence ∧ 0 ≤ b.verifier_reputation ∧ b.value ≤ a.value)
    (hok : calculate_trust_score default_config thash now (pre ++ a :: post) = .ok s)
    (hok2 : calculate_trust_score default_config thash now (pre ++ a2 :: post) = .ok s2) :
    s.score ≤ s2.score := by
  have hs := ok_eq_sequential _ thash now _ s hok (by simp)
  have hs2 := ok_eq_sequential _ thash now _ s2 hok2 (by simp)
  subst hs
  subst hs2
  show normalized_score default_config now (pre ++ a :: post)
      ≤ normalized_score default_config now (pre ++ a2 :: post)
  have hbA := hbounds a (by simp)
  have hc2 : 0 ≤ a2.confidence := by
    rcases hmode with ⟨h1, _, _⟩ | ⟨h1, _, _⟩ | ⟨h1, _, _⟩
    · linarith [hbA.1]
    · rw [h1]; exact hbA.1
    · rw [h1]; exact hbA.1
  have hr2 : 0 ≤ a2.verifier_reputation := by
    rcases hmode with ⟨_, h2, _⟩ | ⟨_, h2, _⟩ | ⟨_, h2, _⟩
    · rw [h2]; exact hbA.2.1
    · linarith [hbA.2.1]
    · rw [h2]; exact hbA.2.1
  have hcf : confidence_factor default_config a ≤ confidence_factor default_config a2 := by
    rcases hmode with ⟨h1, _, _⟩ | ⟨h1, _, _⟩ | ⟨h1, _, _⟩
    · exact confidence_factor_mono default_config a a2 hbA.1 h1
    · rw [confidence_factor, confidence_factor, h1]
    · rw [confidence_factor, confidence_factor, h1]
  have hrf : reputation_factor default_config a ≤ reputation_factor default_config a2 := by
    rcases hmode with ⟨_, h2, _⟩ | ⟨_, h2, _⟩ | ⟨_, h2, _⟩
    · rw [reputation_factor, reputation_factor, h2]
    · exact default_reputation_factor_mono a a2 h2
    · rw [reputation_factor, reputation_factor, h2]
  have hpf : polygon_factor default_config a ≤ polygon_factor default_config a2 := by
    rcases hmode with ⟨_, _, h3⟩ | ⟨_, _, h3⟩ | ⟨_, _, h3, h4⟩
    · rw [polygon_factor, polygon_factor, h3]
    · rw [polygon_factor, polygon_factor, h3]
    · rw [polygon_factor, polygon_factor, h3, h4]
      norm_num [default_config]
  have hfw := final_weight_mono now a a2 hty hts hbA.1 hbA.2.1 hc2 hr2 hcf hrf hpf
  have hfwa := final_weight_nonneg now a hbA.1 hbA.2.1
  apply normalized_mono_core now pre post a a2 hval hfw hfwa
  intro b hb
  have hbmem : b ∈ pre ++ a :: post := by
    rcases List.mem_append.mp hb with hbp | hbp
    · exact List.mem_append.mpr (Or.inl hbp)
    · exact List.mem_append.mpr (Or.inr (List.mem_cons_of_mem a hbp))
  have hbb := hbounds b hbmem
  exact ⟨hbb.2.2, final_weight_nonneg now b hbb.1 hbb.2.1⟩

/-- High-value anchor activity of the C2 counterexample. -/
def cex_hi : TrustActivity := ⟨.ComplianceVerification, 0, 1, 0.9, 0.5, none⟩

/-- Low-value activity before the confidence increase. -/
def cex_lo : TrustActivity := ⟨.ComplianceVerification, 0, 0, 0.2, 0.5, none⟩

/-- The same low-value activity after its confidence rises to `0.4`. -/
def cex_lo2 : TrustActivity := ⟨.ComplianceVerification, 0, 0, 0.4, 0.5, none⟩

theorem cex_fw_hi : final_weight default_config 0 cex_hi = 0.225 := by
  rw [final_weight, base_weight, time_decay, confidence_factor,
    reputation_factor, polygon_factor]
  norm_num [cex_hi, default_config, default_weights, Real.rpow_zero]

theorem cex_fw_lo : final_weight default_config 0 cex_lo = 0.025 := by
  rw [final_weight, base_weight, time_decay, confidence_factor,
    reputation_factor, polygon_factor]
  norm_num [cex_lo, default_config, default_weights, Real.rpow_zero]

theorem cex_fw_lo2 : final_weight default_config 0 cex_lo2 = 0.05 := by
  rw [final_weight, base_weight, time_decay, confidence_factor,
    reputation_factor, polygon_factor]
  norm_num [cex_lo2, default_config, default_weights, Real.rpow_zero]

/-- C2 counterexample.  Raising only the confidence of the value-0 activity
from `0.2` to `0.4` (every other field and the other activity fixed)
strictly decreases `calculate_trust_score`: 90 drops to 900/11 ≈ 81.8. -/
theorem trust_score_monotone_cex :
    ∃ s s2,
      calculate_trust_score default_config (fun _ _ => "") 0 [cex_hi, cex_lo]
        = .ok s ∧
      calculate_trust_score default_config (fun _ _ => "") 0 [cex_hi, cex_lo2]
        = .ok s2 ∧
      s2.score < s.score := by
  refine ⟨calculate_sequential default_config (fun _ _ => "") 0 [cex_hi, cex_lo],
    calculate_sequential default_config (fun _ _ => "") 0 [cex_hi, cex_lo2],
    ?_, ?_, ?_⟩
  · rw [calculate_trust_score]
    norm_num [default_config]
  · rw [calculate_trust_score]
    norm_num [default_config]
  · show normalized_score default_config 0 [cex_hi, cex_lo2]
        < normalized_score default_config 0 [cex_hi, cex_lo]
    have hws1 : weighted_sum default_config 0 [cex_hi, cex_lo] = 0.225 := by
      rw [weighted_sum]
      simp only [List.map_cons, List.map_nil, List.sum_cons, List.sum_nil,
        contribution, cex_fw_hi, cex_fw_lo]
      norm_num [cex_hi, cex_lo]
    have htw1 : total_weight default_config 0 [cex_hi, cex_lo] = 0.25 := by
      rw [total_weight]
      simp only [List.map_cons, List.map_nil, List.sum_cons, List.sum_nil,
        cex_fw_hi, cex_fw_lo]
      norm_num
    have hws2 : weighted_sum default_config 0 [cex_hi, cex_lo2] = 0.225 := by
      rw [weighted_sum]
      simp only [List.map_cons, List.map_nil, List.sum_cons, List.sum_nil,
        contribution, cex_fw_hi, cex_fw_lo2]
      norm_num [cex_hi, cex_lo2]
    have htw2 : total_weight default_config 0 [cex_hi, cex_lo2] = 0.275 := by
      rw [total_weight]
      simp only [List.map_cons, List.map_nil, List.sum_cons, List.sum_nil,
        cex_fw_hi, cex_fw_lo2]
      norm_num
    have h1 : normalized_score default_config 0 [cex_hi, cex_lo] = 90 := by
      rw [normalized_score, raw_score, hws1, htw1]
      norm_num [min_def, max_def]
    have h2 : normalized_score default_config 0 [cex_hi, cex_lo2] = 900 / 11 := by
      rw [normalized_score, raw_score, hws2, htw2]
      norm_num [min_def, max_def]
    rw [h1, h2]
    norm_num

/-- Witness activity for the amended monotonicity theorem. -/
def mono_wit_a : TrustActivity := ⟨.ComplianceVerification, 0, 1, 0.5, 0.5, none⟩

/-- The witness activity with its confidence raised to `0.6`. -/
def mono_wit_a2 : TrustActivity := ⟨.ComplianceVerification, 0, 1, 0.6, 0.5, none⟩

/-- C2 witness: the amended theorem applied to a singleton list whose only
activity gains confidence. -/
theorem trust_score_monotone_witness :
    (calculate_sequential default_config (fun _ _ => "") 0
        ([] ++ mono_wit_a :: [])).score
      ≤ (calculate_sequential default_config (fun _ _ => "") 0
        ([] ++ mono_wit_a2 :: [])).score :=
  trust_score_monotone (fun _ _ => "") 0 [] [] mono_wit_a mono_wit_a2 _ _
    rfl rfl rfl
    (Or.inl ⟨by norm_num [mono_wit_a, mono_wit_a2], rfl, rfl⟩)
    (by
      intro b hb
      simp only [List.nil_append, List.mem_cons, List.not_mem_nil, or_false] at hb
      subst hb
      norm_num [mono_wit_a])
    (by rw [calculate_trust_score]; norm_num [default_config])
    (by rw [calculate_trust_score]; norm_num [default_config])

end Trust

namespace MC

/-- The outcome of a fallible Rust computation: `Ok`, `Err`, or a panic
(which is not a value at all in Rust; it is modelled as a third
constructor so that claims about panics can be stated). -/
inductive Outcome (α : Type) where
  | ok : α → Outcome α
  | err : String → Outcome α
  | panic : Outcome α

def Outcome.bind {α β : Type} : Outcome α → (α → Outcome β) → Outcome β
  | .ok a, f => f a
  | .err e, _ => .err e
  | .panic, _ => .panic

def Outcome.map {α β : Type} (f : α → β) : Outcome α → Outcome β
  | .ok a => .ok (f a)
  | .err e => .err e
  | .panic => .panic

/-- The RNG interface the engine consumes, abstracting
`Xoshiro256PlusPlus` and the `rand_distr` samplers: a deterministic state
machine seeded by `seed_from_u64`. -/
structure RngOps (σ : Type) where
  seed_from_u64 : Nat → σ
  next_unit : σ → ℝ × σ
  next_range : Nat → σ → Nat × σ
  next_bernoulli : ℝ → σ → Bool × σ
  next_normal : ℝ → ℝ → σ → ℝ × σ
  next_beta : ℝ → ℝ → σ → ℝ × σ
  next_uniform : ℝ → ℝ → σ → ℝ × σ

/-- `DistributionType`. -/
inductive DistributionType where
  | Normal : ℝ → ℝ → DistributionType
  | Uniform : ℝ → ℝ → DistributionType
  | Beta : ℝ → ℝ → DistributionType
  | Triangular : ℝ → ℝ → ℝ → DistributionType
  | Empirical : List ℝ → DistributionType

structure ComplianceFactor where
  name : String
  base_value : ℝ
  distribution : DistributionType
  weight : ℝ
  correlation_factors : List (String × ℝ)

structure MarketConditions where
  volatility : DistributionType
  growth_rate : DistributionType
  competition_intensity : DistributionType

structure RegulatoryEnvironment where
  stringency : DistributionType
  change_frequency : DistributionType
  enforcement_probability : DistributionType

structure ComplianceScenario where
  name : String
  compliance_factors : List ComplianceFactor
  market_conditions : MarketConditions
  regulatory_environment : RegulatoryEnvironment
  polygon_verification_rate : ℝ

structure MonteCarloConfig where
  iterations : Nat
  confidence_intervals : List ℝ
  parallel_threshold : Nat
  seed : Option Nat
  enable_polygon_verification : Bool

structure FactorValue where
  name : String
  value : ℝ
  weight : ℝ

structure MarketConditionValues where
  volatility : ℝ
  growth_rate : ℝ
  competition_intensity : ℝ

structure RegulatoryConditionValues where
  stringency : ℝ
  change_frequency : ℝ
  enforcement_probability : ℝ

structure SimulationIteration where
  iteration_id : Nat
  compliance_score : ℝ
  risk_score : ℝ
  factor_values : List FactorValue
  market_conditions : MarketConditionValues
  regulatory_conditions : RegulatoryConditionValues
  polygon_verified : Bool
  enforcement_action : Bool

/-- `MonteCarloEngine::sample_distribution`.  Error and panic conditions
follow the libraries used: `Normal::new` rejects a negative deviation,
`Beta::new` rejects non-positive parameters, `Uniform::new` panics unless
`min < max`, and the empty empirical list is rejected before sampling. -/
noncomputable def sample_distribution {σ : Type} (ops : RngOps σ)
    (d : DistributionType) (s : σ) : Outcome (ℝ × σ) :=
  match d with
  | .Normal mean std_dev =>
      if std_dev < 0 then .err "Invalid normal distribution"
      else .ok (ops.next_normal mean std_dev s)
  | .Uniform mn mx =>
      if mn < mx then .ok (ops.next_uniform mn mx s) else .panic
  | .Beta al be =>
      if 0 < al ∧ 0 < be then .ok (ops.next_beta al be s)
      else .err "Invalid beta distribution"
  | .Triangular mn mode mx =>
      if (ops.next_unit s).1 < (mode - mn) / (mx - mn) then
        .ok (mn + Real.sqrt ((mx - mn) * (mode - mn) * (ops.next_unit s).1),
          (ops.next_unit s).2)
      else
        .ok (mx - Real.sqrt ((mx - mn) * (mx - mode) * (1 - (ops.next_unit s).1)),
          (ops.next_unit s).2)
  | .Empirical values =>
      if values.length = 0 then .err "Empty empirical distribution"
      else .ok (values.getD (ops.next_range values.length s).1 0,
        (ops.next_range values.length s).2)

/-- `rng.gen_bool(p)`: rand's implementation panics when `p` lies outside
`[0, 1]`. -/
noncomputable def gen_bool {σ : Type} (ops : RngOps σ) (p : ℝ) (s : σ) :
    Outcome (Bool × σ) :=
  if 0 ≤ p ∧ p ≤ 1 then .ok (ops.next_bernoulli p s) else .panic

/-- The named-correlation adjustments applied to one factor's base sample. -/
def apply_correlations (mv rs : ℝ) : List (String × ℝ) → ℝ → ℝ
  | [], v => v
  | (n, c) :: rest, v =>
      apply_correlations mv rs rest
        (if n = "market_volatility" then v + mv * c
         else if n = "regulatory_stringency" then v + rs * c else v)

/-- The compliance-factor loop of `simulate_single_iteration`: sample each
factor, apply correlations, clamp to `[0, 1]`, and accumulate
`value * weight` into the running score `acc`. -/
noncomputable def factor_loop {σ : Type} (ops : RngOps σ) (mv rs : ℝ)
    (acc : ℝ) : List ComplianceFactor → σ → Outcome ((List FactorValue × ℝ) × σ)
  | [], s => .ok (([], acc), s)
  | f :: fs, s =>
      (sample_distribution ops f.distribution s).bind fun bs =>
        (factor_loop ops mv rs
            (acc + min (max (apply_correlations mv rs f.correlation_factors bs.1) 0) 1
              * f.weight) fs bs.2).bind fun r =>
          .ok ((⟨f.name,
              min (max (apply_correlations mv rs f.correlation_factors bs.1) 0) 1,
              f.weight⟩ :: r.1.1, r.1.2), r.2)

/-- `MonteCarloEngine::simulate_single_iteration`: sample the market and
regulatory conditions, run the factor loop, apply the market and regulatory
impacts and the optional verification boost, then draw the verification and
enforcement events. -/
noncomputable def simulate_single_iteration {σ : Type} (ops : RngOps σ)
    (cfg : MonteCarloConfig) (scenario : ComplianceScenario)
    (iteration_id : Nat) (s0 : σ) : Outcome (SimulationIteration × σ) :=
  (sample_distribution ops scenario.market_conditions.volatility s0).bind fun mv =>
  (sample_distribution ops scenario.market_conditions.growth_rate mv.2).bind fun mg =>
  (sample_distribution ops scenario.market_conditions.competition_intensity mg.2).bind fun comp =>
  (sample_distribution ops scenario.regulatory_environment.stringency comp.2).bind fun rs =>
  (sample_distribution ops scenario.regulatory_environment.change_frequency rs.2).bind fun rc =>
  (sample_distribution ops scenario.regulatory_environment.enforcement_probability rc.2).bind fun ep =>
  (factor_loop ops mv.1 rs.1 0 scenario.compliance_factors ep.2).bind fun fl =>
  (gen_bool ops scenario.polygon_verification_rate fl.2).bind fun pv =>
  (gen_bool ops (ep.1 *
      (1 - min (max (if pv.1 && cfg.enable_polygon_verification then
          fl.1.2 * ((1 + (mg.1 - 0.5) * 0.2 - mv.1 * 0.1) *
            (1 - (rs.1 - 0.5) * 0.3 - rc.1 * 0.05)) * 1.15
        else
          fl.1.2 * ((1 + (mg.1 - 0.5) * 0.2 - mv.1 * 0.1) *
            (1 - (rs.1 - 0.5) * 0.3 - rc.1 * 0.05))) 0) 1)) pv.2).bind fun ea =>
  .ok (⟨iteration_id,
    (if pv.1 && cfg.enable_polygon_verification then
        fl.1.2 * ((1 + (mg.1 - 0.5) * 0.2 - mv.1 * 0.1) *
          (1 - (rs.1 - 0.5) * 0.3 - rc.1 * 0.05)) * 1.15
      else
        fl.1.2 * ((1 + (mg.1 - 0.5) * 0.2 - mv.1 * 0.1) *
          (1 - (rs.1 - 0.5) * 0.3 - rc.1 * 0.05))),
    1 - min (max (if pv.1 && cfg.enable_polygon_verification then
        fl.1.2 * ((1 + (mg.1 - 0.5) * 0.2 - mv.1 * 0.1) *
          (1 - (rs.1 - 0.5) * 0.3 - rc.1 * 0.05)) * 1.15
      else
        fl.1.2 * ((1 + (mg.1 - 0.5) * 0.2 - mv.1 * 0.1) *
          (1 - (rs.1 - 0.5) * 0.3 - rc.1 * 0.05))) 0) 1,
    fl.1.1, ⟨mv.1, mg.1, comp.1⟩, ⟨rs.1, rc.1, ep.1⟩, pv.1, ea.1⟩, ea.2)

/-- `MonteCarloEngine::create_rng`: seed when configured, entropy
otherwise. -/
def create_rng {σ : Type} (ops : RngOps σ) (cfg : MonteCarloConfig)
    (entropy : σ) : σ :=
  match cfg.seed with
  | some sd => ops.seed_from_u64 sd
  | none => entropy

/-- The sequential loop of `run_sequential_simulation`: one RNG threaded
across all trials, in order. -/
noncomputable def run_seq_aux {σ : Type} (ops : RngOps σ)
    (cfg : MonteCarloConfig) (scenario : ComplianceScenario) :
    Nat → Nat → σ → Outcome (List SimulationIteration)
  | _, 0, _ => .ok []
  | i, n + 1, s =>
      (simulate_single_iteration ops cfg scenario i s).bind fun r =>
        (run_seq_aux ops cfg scenario (i + 1) n r.2).bind fun rest =>
          .ok (r.1 :: rest)

/-- `MonteCarloEngine::run_sequential_simulation`. -/
noncomputable def run_sequential_simulation {σ : Type} (ops : RngOps σ)
    (cfg : MonteCarloConfig) (scenario : ComplianceScenario) (entropy : σ) :
    Outcome (List SimulationIteration) :=
  run_seq_aux ops cfg scenario 0 cfg.iterations (create_rng ops cfg entropy)

/-- One parallel trial: an independent RNG seeded from
`base_seed.wrapping_add(i)` (`u64` wrap-around is the explicit
`% 2 ^ 64`). -/
noncomputable def trial_outcome {σ : Type} (ops : RngOps σ)
    (cfg : MonteCarloConfig) (scenario : ComplianceScenario)
    (base_seed i : Nat) : Outcome SimulationIteration :=
  (simulate_single_iteration ops cfg scenario i
    (ops.seed_from_u64 ((base_seed + i) % 2 ^ 64))).map Prod.fst

/-- Collect per-trial outcomes in index order into one outcome, the way
`collect::<Result<Vec<_>>>` does. -/
def collect_outcomes {α : Type} : List (Outcome α) → Outcome (List α)
  | [] => .ok []
  | o :: os => o.bind fun a => (collect_outcomes os).bind fun rest => .ok (a :: rest)

/-- Reassemble scheduled trial results by trial index: position `i` of the
output receives the result tagged `i`, whatever order the schedule produced
the results in. -/
def gather (n : Nat) (pairs : List (Nat × Outcome SimulationIteration)) :
    List (Outcome SimulationIteration) :=
  (List.range n).map fun i =>
    ((pairs.find? fun p => p.1 == i).map Prod.snd).getD .panic

/-- `run_parallel_simulation` under an explicit schedule: `sched` is the
order in which the fork-join pool happens to run the trials; each trial's
result is a pure function of `base_seed + i`, and results are placed by
index. -/
noncomputable def run_parallel_scheduled {σ : Type} (ops : RngOps σ)
    (cfg : MonteCarloConfig) (scenario : ComplianceScenario)
    (base_seed : Nat) (sched : List Nat) : Outcome (List SimulationIteration) :=
  collect_outcomes (gather cfg.iterations
    (sched.map fun i => (i, trial_outcome ops cfg scenario base_seed i)))

structure Statistics where
  mean : ℝ
  median : ℝ
  std_dev : ℝ
  min : ℝ
  max : ℝ
  skewness : ℝ
  kurtosis : ℝ

structure ConfidenceInterval where
  confidence_level : ℝ
  lower_bound : ℝ
  upper_bound : ℝ

structure FactorSensitivity where
  factor_name : String
  correlation_with_compliance : ℝ
  impact_magnitude : ℝ

structure SimulationResult where
  scenario_name : String
  iterations : Nat
  compliance_statistics : Statistics
  risk_statistics : Statistics
  confidence_intervals : List ConfidenceInterval
  factor_sensitivities : List FactorSensitivity
  enforcement_probability : ℝ
  polygon_verification_rate : ℝ
  percentiles : List (ℝ × ℝ)
  convergence_achieved : Bool

/-- The stable ascending sort `sort_by(partial_cmp)` performs (no NaN in the
real-number model). -/
noncomputable def sort_reals (l : List ℝ) : List ℝ :=
  l.mergeSort fun a b => decide (a ≤ b)

/-- `MonteCarloEngine::calculate_statistics`. -/
noncomputable def calculate_statistics (values : List ℝ) : Statistics :=
  { mean := values.sum / (values.length : ℝ),
    median :=
      if values.length % 2 = 0 then
        ((sort_reals values).getD (values.length / 2 - 1) 0
          + (sort_reals values).getD (values.length / 2) 0) / 2
      else (sort_reals values).getD (values.length / 2) 0,
    std_dev := Real.sqrt ((values.map
      (fun v => (v - values.sum / (values.length : ℝ)) ^ 2)).sum / (values.length : ℝ)),
    min := (sort_reals values).headI,
    max := (sort_reals values).getLastD 0,
    skewness :=
      if Real.sqrt ((values.map
          (fun v => (v - values.sum / (values.length : ℝ)) ^ 2)).sum
            / (values.length : ℝ)) = 0 then 0
      else ((values.length : ℝ) / (((values.length : ℝ) - 1) *
          ((values.length : ℝ) - 2))) *
        (values.map (fun v => ((v - values.sum / (values.length : ℝ)) /
          Real.sqrt ((values.map
            (fun w => (w - values.sum / (values.length : ℝ)) ^ 2)).sum
              / (values.length : ℝ))) ^ 3)).sum,
    kurtosis :=
      if Real.sqrt ((values.map
          (fun v => (v - values.sum / (values.length : ℝ)) ^ 2)).sum
            / (values.length : ℝ)) = 0 then 0
      else ((values.length : ℝ) - 1) / ((((values.length : ℝ) - 2)) *
          (((values.length : ℝ) - 3))) *
        (((values.length : ℝ) + 1) *
          ((values.map (fun v => ((v - values.sum / (values.length : ℝ)) /
            Real.sqrt ((values.map
              (fun w => (w - values.sum / (values.length : ℝ)) ^ 2)).sum
                / (values.length : ℝ))) ^ 4)).sum / (values.length : ℝ) - 3) + 6) }

/-- `MonteCarloEngine::calculate_confidence_interval`: order-statistic
bounds (`as usize` saturates negative values at zero, as `Nat.floor`
does). -/
noncomputable def calculate_confidence_interval (values : List ℝ)
    (confidence_level : ℝ) : ℝ × ℝ :=
  ((sort_reals values).getD ⌊((1 - confidence_level) / 2) * (values.length : ℝ)⌋₊ 0,
   (sort_reals values).getD
     (Nat.min ⌊(1 - (1 - confidence_level) / 2) * (values.length : ℝ)⌋₊
       (values.length - 1)) 0)

/-- `MonteCarloEngine::calculate_percentiles`: the fixed ladder. -/
noncomputable def calculate_percentiles (values : List ℝ) : List (ℝ × ℝ) :=
  [0.01, 0.05, 0.10, 0.25, 0.50, 0.75, 0.90, 0.95, 0.99].map fun p =>
    (p, (sort_reals values).getD
      (Nat.min ⌊p * (values.length : ℝ)⌋₊ (values.length - 1)) 0)

/-- `MonteCarloEngine::calculate_correlation` (Pearson). -/
noncomputable def calculate_correlation (x y : List ℝ) : ℝ :=
  if x.length ≠ y.length ∨ x = [] then 0
  else
    if Real.sqrt (((x.length : ℝ) * (x.map fun a => a * a).sum - x.sum * x.sum) *
        ((x.length : ℝ) * (y.map fun b => b * b).sum - y.sum * y.sum)) = 0 then 0
    else ((x.length : ℝ) * ((x.zip y).map fun q => q.1 * q.2).sum - x.sum * y.sum) /
      Real.sqrt (((x.length : ℝ) * (x.map fun a => a * a).sum - x.sum * x.sum) *
        ((x.length : ℝ) * (y.map fun b => b * b).sum - y.sum * y.sum))

/-- `MonteCarloEngine::calculate_factor_sensitivities`: per-factor Pearson
correlation with the compliance score, ranked by `|corr| * weight`
descending (stable). -/
noncomputable def calculate_factor_sensitivities
    (results : List SimulationIteration) : List FactorSensitivity :=
  match results with
  | [] => []
  | first :: _ =>
      (first.factor_values.map fun f =>
        ⟨f.name,
          calculate_correlation
            (results.map fun r =>
              ((r.factor_values.find? fun g => g.name == f.name).map
                FactorValue.value).getD 0)
            (results.map fun r => r.compliance_score),
          |calculate_correlation
            (results.map fun r =>
              ((r.factor_values.find? fun g => g.name == f.name).map
                FactorValue.value).getD 0)
            (results.map fun r => r.compliance_score)| * f.weight⟩).mergeSort
        fun a b => decide (b.impact_magnitude ≤ a.impact_magnitude)

/-- `MonteCarloEngine::check_convergence`: fails open below 1000 samples,
otherwise compares first-half and second-half means. -/
noncomputable def check_convergence (values : List ℝ) : Bool :=
  if values.length < 1000 then false
  else
    decide (|(values.take (values.length / 2)).sum / ((values.length / 2 : Nat) : ℝ)
      - (values.drop (values.length / 2)).sum /
          ((values.length - values.length / 2 : Nat) : ℝ)| < 0.001)

/-- `MonteCarloEngine::analyze_results`. -/
noncomputable def analyze_results (cfg : MonteCarloConfig)
    (scenario : ComplianceScenario) (results : List SimulationIteration) :
    Outcome SimulationResult :=
  if results.isEmpty then .err "No simulation results"
  else
    .ok { scenario_name := scenario.name,
          iterations := results.length,
          compliance_statistics := calculate_statistics
            (results.map fun r => r.compliance_score),
          risk_statistics := calculate_statistics
            (results.map fun r => r.risk_score),
          confidence_intervals := cfg.confidence_intervals.map fun c =>
            ⟨c, (calculate_confidence_interval
                  (results.map fun r => r.compliance_score) c).1,
              (calculate_confidence_interval
                  (results.map fun r => r.compliance_score) c).2⟩,
          factor_sensitivities := calculate_factor_sensitivities results,
          enforcement_probability :=
            ((results.countP fun r => r.enforcement_action : Nat) : ℝ)
              / (results.length : ℝ),
          polygon_verification_rate :=
            ((results.countP fun r => r.polygon_verified : Nat) : ℝ)
              / (results.length : ℝ),
          percentiles := calculate_percentiles
            (results.map fun r => r.compliance_score),
          convergence_achieved := check_convergence
            (results.map fun r => r.compliance_score) }

/-- `MonteCarloEngine::simulate_compliance_risk`, with the schedule of the
parallel path made explicit.  `entropy` models `from_entropy` (sequential)
and `entropy_seed` models `thread_rng().gen()` (parallel); neither is used
when a seed is configured. -/
noncomputable def simulate_compliance_risk_scheduled {σ : Type}
    (ops : RngOps σ) (cfg : MonteCarloConfig) (scenario : ComplianceScenario)
    (entropy : σ) (entropy_seed : Nat) (sched : List Nat) :
    Outcome SimulationResult :=
  (if cfg.parallel_threshold < cfg.iterations then
    run_parallel_scheduled ops cfg scenario (cfg.seed.getD entropy_seed) sched
  else
    run_sequential_simulation ops cfg scenario entropy).bind
    (analyze_results cfg scenario)

/-- `simulate_compliance_risk` as executed: the canonical in-order
schedule. -/
noncomputable def simulate_compliance_risk {σ : Type} (ops : RngOps σ)
    (cfg : MonteCarloConfig) (scenario : ComplianceScenario) (entropy : σ)
    (entropy_seed : Nat) : Outcome SimulationResult :=
  simulate_compliance_risk_scheduled ops cfg scenario entropy entropy_seed
    (List.range cfg.iterations)

theorem find_map_pairs (f : Nat → Outcome SimulationIteration) :
    ∀ (l : List Nat) (i : Nat), i ∈ l →
      ((l.map fun j => (j, f j)).find? fun p => p.1 == i) = some (i, f i)
  | [], i, h => by simp at h
  | j :: l, i, h => by
      by_cases hji : j = i
      · subst hji
        simp
      · have hmem : i ∈ l := by
          rcases List.mem_cons.mp h with h1 | h1
          · exact absurd h1.symm hji
          · exact h1
        rw [List.map_cons, List.find?_cons_of_neg _ (by simpa using hji)]
        exact find_map_pairs f l i hmem

theorem gather_perm (f : Nat → Outcome SimulationIteration) (n : Nat)
    (sched : List Nat) (hp : sched.Perm (List.range n)) :
    gather n (sched.map fun i => (i, f i)) = (List.range n).map f := by
  rw [gather]
  apply List.map_congr_left
  intro i hi
  rw [find_map_pairs f sched i (hp.mem_iff.mpr hi)]
  rfl

/-- C3.  With a configured seed, two runs of the simulation agree exactly,
whatever entropy the unseeded paths would have drawn and however the
fork-join pool schedules the parallel trials: each parallel trial draws an
independent RNG from `base_seed + trial_index`, so the gathered results —
and hence every aggregate statistic — depend only on the seed, the scenario
and the iteration count. -/
theorem simulation_deterministic {σ : Type} (ops : RngOps σ)
    (cfg : MonteCarloConfig) (scenario : ComplianceScenario) (sd : Nat)
    (e1 e2 : σ) (n1 n2 : Nat) (sched1 sched2 : List Nat)
    (hseed : cfg.seed = some sd)
    (h1 : sched1.Perm (List.range cfg.iterations))
    (h2 : sched2.Perm (List.range cfg.iterations)) :
    simulate_compliance_risk_scheduled ops cfg scenario e1 n1 sched1
      = simulate_compliance_risk_scheduled ops cfg scenario e2 n2 sched2 := by
  rw [simulate_compliance_risk_scheduled, simulate_compliance_risk_scheduled]
  by_cases hpar : cfg.parallel_threshold < cfg.iterations
  · rw [if_pos hpar, if_pos hpar, run_parallel_scheduled, run_parallel_scheduled,
      gather_perm _ cfg.iterations sched1 h1, gather_perm _ cfg.iterations sched2 h2,
      hseed]
    simp only [Option.getD_some]
  · rw [if_neg hpar, if_neg hpar, run_sequential_simulation,
      run_sequential_simulation, create_rng, create_rng, hseed]

/-- A trivial deterministic RNG over the unit state, for the witness. -/
noncomputable def unit_rng : RngOps Unit :=
  ⟨fun _ => (), fun _ => (0, ()), fun _ _ => (0, ()), fun _ _ => (false, ()),
   fun _ _ _ => (0, ()), fun _ _ _ => (0, ()), fun _ _ _ => (0, ())⟩

/-- Witness configuration: two iterations, parallel threshold zero (parallel
path), seed 7. -/
def wit_cfg : MonteCarloConfig := ⟨2, [], 0, some 7, true⟩

/-- Witness scenario: singleton empirical distributions throughout. -/
noncomputable def wit_scenario : ComplianceScenario :=
  ⟨"witness", [],
   ⟨.Empirical [1 / 2], .Empirical [1 / 2], .Empirical [1 / 2]⟩,
   ⟨.Empirical [1 / 2], .Empirical [1 / 2], .Empirical [1 / 2]⟩, 1 / 2⟩

/-- C3 witness: opposite schedules and different entropy inputs give the
same result. -/
theorem simulation_deterministic_witness :
    simulate_compliance_risk_scheduled unit_rng wit_cfg wit_scenario () 0 [1, 0]
      = simulate_compliance_risk_scheduled unit_rng wit_cfg wit_scenario () 5 [0, 1] :=
  simulation_deterministic unit_rng wit_cfg wit_scenario 7 () () 0 5 [1, 0] [0, 1]
    rfl (by decide) (by decide)

/-- The configuration of the C8 failing input: one iteration, sequential
path, seed 1. -/
def panic_cfg : MonteCarloConfig := ⟨1, [], 1000, some 1, true⟩

/-- The C8 failing input: a well-formed scenario whose
`polygon_verification_rate` is `2.0` — every distribution is a singleton
empirical, so it samples fine, but `rng.gen_bool(2.0)` panics inside
rand. -/
noncomputable def panic_scenario : ComplianceScenario :=
  ⟨"panic", [],
   ⟨.Empirical [1 / 2], .Empirical [1 / 2], .Empirical [1 / 2]⟩,
   ⟨.Empirical [1 / 2], .Empirical [1 / 2], .Empirical [1 / 2]⟩, 2⟩

/-- C8 is violated by the code: with an external-verification rate of `2.0`
(attacker-controlled scenario input), `simulate_compliance_risk` reaches
`rng.gen_bool(scenario.polygon_verification_rate)` and panics instead of
returning a tagged error, for every RNG. -/
theorem simulate_panics_on_bad_rate {σ : Type} (ops : RngOps σ)
    (entropy : σ) (eseed : Nat) :
    simulate_compliance_risk ops panic_cfg panic_scenario entropy eseed
      = Outcome.panic := by
  rw [simulate_compliance_risk, simulate_compliance_risk_scheduled,
    if_neg (by norm_num [panic_cfg])]
  show (run_sequential_simulation ops panic_cfg panic_scenario entropy).bind _
    = Outcome.panic
  rw [run_sequential_simulation]
  norm_num [panic_cfg, panic_scenario, create_rng, run_seq_aux,
    simulate_single_iteration, sample_distribution, factor_loop, gen_bool,
    Outcome.bind]

end MC
